import Mathlib

/-!
Verification of the Dart code-generation template of `postgres-meta`
(`src/server/templates/dart.ts` and the companion template file).

The development shallowly embeds the type-resolution and mapping engine:

* the schema data model (`PostgresType`, `PostgresColumn`),
* the name formatter `formatForDartClassName` (which can throw on
  malformed names, modeled with `Except JsError`),
* the target-type representation `DartType` with its `generateType`,
  `generateJsonEncoding` and `generateJsonDecoding` operations,
* the nullable smart constructor `newNullDartType` (mirroring
  `new NullDartType(...)`, which collapses nested wrappers),
* the column mapper `buildDartTypeFromPostgresColumn`,
* the JSON-schema builder `buildDartTypeFromJsonschema` over an explicit
  `Json` value model (`JSON.parse` is modeled by its result),
* the dependency sorter `sortTypesByDependency` (DFS with fuel; JavaScript
  recursion always terminates or throws, and the fuel bound is proved
  sufficient below),
* the closure collector `getRequiredTypes`, and
* the enum-comment translation validation of the companion template
  (`DartTs` namespace: `isTranslation`, `isEnumDartComment`, enum
  construction).

JavaScript runtime failures (`undefined[1]`, `'k' in primitive`,
`word[0].toUpperCase()` on `undefined`, `JSON.parse` failures) are modeled
with `Except JsError`.  Diagnostic `console.log` lines are modeled as
returned lists of strings.
-/

/-- Runtime errors of the embedded JavaScript fragments. -/
inductive JsError where
  | typeError
  | jsonParseError
  | fuelOut
  deriving Repr, DecidableEq

/-! ## Schema data model -/

/-- An attribute of a composite PostgreSQL type (`{name, type_id}`). -/
structure PostgresTypeAttribute where
  name : String
  type_id : Nat
  deriving Repr, DecidableEq

/-- A PostgreSQL catalog type as consumed by the template. -/
structure PostgresType where
  id : Nat
  name : String
  attributes : List PostgresTypeAttribute
  enums : List String
  comment : Option String
  deriving Repr, DecidableEq

/-- A PostgreSQL column as consumed by the template. -/
structure PostgresColumn where
  table_id : Nat
  name : String
  format : String
  data_type : String
  is_nullable : Bool
  is_generated : Bool
  is_identity : Bool
  default_value : Option String
  check : Option String
  deriving Repr, DecidableEq

/-! ## Name formatting

`formatForDartClassName` splits on `/[^a-zA-Z0-9]/` and upper-cases the
first character of every segment.  An empty segment makes `word[0]`
`undefined`, so `word[0].toUpperCase()` throws a `TypeError`. -/

/-- A character matched by the character class `[a-zA-Z0-9]`. -/
def isAlnumChar (c : Char) : Bool :=
  (c ≥ 'a' && c ≤ 'z') || (c ≥ 'A' && c ≤ 'Z') || (c ≥ '0' && c ≤ '9')

/-- `String.prototype.split(/[^a-zA-Z0-9]/)` on the character list: every
non-alphanumeric character separates, and empty segments are kept (also
leading and trailing ones, as in JavaScript). -/
def splitSegs : List Char → List (List Char)
  | [] => [[]]
  | c :: cs =>
    if isAlnumChar c then
      match splitSegs cs with
      | [] => [[c]]
      | seg :: segs => (c :: seg) :: segs
    else
      [] :: splitSegs cs

/-- One segment of the split: `word[0].toUpperCase() + word.slice(1)`.
Throws on the empty segment. -/
def upperFirstSeg : List Char → Except JsError (List Char)
  | [] => .error .typeError
  | c :: rest => .ok (c.toUpper :: rest)

/-- `formatForDartClassName` from the template. -/
def formatForDartClassName (name : String) : Except JsError String := do
  let words ← (splitSegs name.data).mapM upperFirstSeg
  return String.mk words.flatten

/-- One segment lower-cased at the head, used by `formatForDartPropertyName`. -/
def lowerFirst : List Char → Except JsError (List Char)
  | [] => .error .typeError
  | c :: rest => .ok (c.toLower :: rest)

/-- `s.startsWith('_')` (the array sentinel test), computed on the
character list so the kernel can evaluate it. -/
def startsWithUnderscore (s : String) : Bool :=
  match s.data with
  | [] => false
  | c :: _ => c == '_'

/-- `s.slice(1)`: drop the array sentinel character. -/
def dropFirstChar (s : String) : String :=
  String.mk (s.data.drop 1)

/-- `formatForDartPropertyName` from the template. -/
def formatForDartPropertyName (name : String) : Except JsError String := do
  let className ← formatForDartClassName name
  let lowered ← lowerFirst className.data
  return String.mk lowered

/-! ## Target types -/

/-- The builtin Dart keywords of `BuiltinDartTypeKeyword`. -/
inductive BuiltinDartTypeKeyword where
  | int
  | double
  | bool
  | str
  | dynamic
  deriving Repr, DecidableEq

/-- Rendering of a builtin keyword (`'String'` for `str`). -/
def BuiltinDartTypeKeyword.render : BuiltinDartTypeKeyword → String
  | .int => "int"
  | .double => "double"
  | .bool => "bool"
  | .str => "String"
  | .dynamic => "dynamic"

/-- The target-type representation: one constructor per `DartType` class of
the template.  The composite and JSON-schema classes store their
precomputed class name (computed by `formatForDartClassName` at
construction time, see the `new…` smart constructors below). -/
inductive DartType where
  | builtinDartType (keyword : BuiltinDartTypeKeyword)
  | datetimeDartType
  | durationDartType
  | listDartType (containedType : DartType)
  | nullDartType (containedType : DartType)
  | mapDartType (keyType valueType : DartType)
  | enumDartConstruct (originalName : String) (values : List String)
  | classDartConstructForCompositeType (postgresType : PostgresType)
      (ptdMap : List (String × Option PostgresType × DartType)) (name : String)
  | classDartConstructForJsonschema (name : String)
      (props : List (String × Option PostgresType × DartType))

/-- The `PostgresToDartMap` registry: JavaScript `Record<number | string,
[PostgresType | undefined, DartType]>`.  Numeric keys are coerced to
strings; assignments append, and lookups take the most recent binding. -/
abbrev PostgresToDartMap := List (String × Option PostgresType × DartType)

/-- Record lookup: the last assignment to a key wins. -/
def ptdLookup (m : PostgresToDartMap) (k : String) :
    Option (Option PostgresType × DartType) :=
  (m.reverse.find? (fun e => e.1 == k)).map (·.2)

/-- `new NullDartType(x)`: the constructor unwraps an already-nullable
argument, so wrapping collapses. -/
def newNullDartType (containedType : DartType) : DartType :=
  match containedType with
  | .nullDartType inner => .nullDartType inner
  | d => .nullDartType d

/-- Whether a target type is the nullable wrapper (`instanceof NullDartType`). -/
def DartType.isNullableType : DartType → Bool
  | .nullDartType _ => true
  | _ => false

/-- `generateType()`.  The enum variant formats its original name at call
time and can therefore throw. -/
def DartType.generateType : DartType → Except JsError String
  | .builtinDartType kw => .ok kw.render
  | .datetimeDartType => .ok "DateTime"
  | .durationDartType => .ok "Duration"
  | .listDartType contained => do
    let inner ← contained.generateType
    return "List<" ++ inner ++ ">"
  | .nullDartType contained => do
    let inner ← contained.generateType
    return inner ++ "?"
  | .mapDartType keyType valueType => do
    let k ← keyType.generateType
    let v ← valueType.generateType
    return "Map<" ++ k ++ ", " ++ v ++ ">"
  | .enumDartConstruct originalName _ => formatForDartClassName originalName
  | .classDartConstructForCompositeType _ _ name => .ok name
  | .classDartConstructForJsonschema name _ => .ok name

/-- `generateJsonEncoding()`.  No variant formats a name here, so the
result is a plain string. -/
def DartType.generateJsonEncoding : DartType → String
  | .builtinDartType _ => ""
  | .datetimeDartType => ".toIso8601String()"
  | .durationDartType => ".inSeconds"
  | .listDartType contained =>
    ".map((v) => v" ++ contained.generateJsonEncoding ++ ").toList()"
  | .nullDartType contained => contained.generateJsonEncoding
  | .mapDartType _ _ => ""
  | .enumDartConstruct _ _ => ".toJson()"
  | .classDartConstructForCompositeType _ _ _ => ".toJson()"
  | .classDartConstructForJsonschema _ _ => ".toJson()"

/-- `generateJsonDecoding(inputParameter)`.  The list variant applies the
element decoding to the per-element variable `v`. -/
def DartType.generateJsonDecoding : DartType → String → Except JsError String
  | .builtinDartType kw, p => .ok (p ++ " as " ++ kw.render)
  | .datetimeDartType, p => .ok ("DateTime.parse(" ++ p ++ ")")
  | .durationDartType, p => .ok ("parsePostgresInterval(" ++ p ++ ")")
  | .listDartType contained, p => do
    let inner ← contained.generateJsonDecoding "v"
    return "(" ++ p ++ " as List<dynamic>).map((v) => " ++ inner ++ ").toList()"
  | .nullDartType contained, p => do
    let inner ← contained.generateJsonDecoding p
    return p ++ " == null ? null : " ++ inner
  | .mapDartType _ _, p => .ok (p ++ " as Map<String, dynamic>")
  | .enumDartConstruct originalName _, p => do
    let cls ← formatForDartClassName originalName
    return cls ++ ".fromJson(" ++ p ++ ")"
  | .classDartConstructForCompositeType _ _ name, p =>
    .ok (name ++ ".fromJson(" ++ p ++ ")")
  | .classDartConstructForJsonschema name _, p =>
    .ok (name ++ ".fromJson(" ++ p ++ ")")

/-! ## Column mapping

`buildDartTypeFromPostgresColumn(column, ptdMap, forInsert)`:
`ptdMap[column.format][1]` throws when the format has no registry entry
(`undefined[1]`); the `jsonb` override by column name is consulted next;
finally the nullable wrapper is applied for nullable columns and, on the
insert variant, for generated/identity/defaulted columns.  The function
reads the registry and never writes to it. -/
def buildDartTypeFromPostgresColumn (postgresColumn : PostgresColumn)
    (ptdMap : PostgresToDartMap) (forInsert : Bool) :
    Except JsError DartType := do
  match ptdLookup ptdMap postgresColumn.format with
  | none => .error .typeError
  | some entry =>
    let dartType :=
      if postgresColumn.format = "jsonb" then
        match ptdLookup ptdMap postgresColumn.name with
        | some overridden => overridden.2
        | none => entry.2
      else entry.2
    if postgresColumn.is_nullable ||
        (forInsert && (postgresColumn.is_generated || postgresColumn.is_identity ||
          postgresColumn.default_value.isSome)) then
      return newNullDartType dartType
    else
      return dartType

/-! ## JSON values

`JSON.parse` results are modeled by an explicit value type.  A JavaScript
`undefined` (absent member) is modeled by `Option`. -/

/-- A parsed JSON value. -/
inductive Json where
  | null
  | bool (b : Bool)
  | num (n : Int)
  | str (s : String)
  | arr (items : List Json)
  | obj (fields : List (String × Json))
  deriving Repr

/-- Member lookup on an object: later duplicate keys win, as in the result
of `JSON.parse`. -/
def lookupLastField (fields : List (String × Json)) (k : String) : Option Json :=
  (fields.reverse.find? (fun e => e.1 == k)).map (·.2)

/-- The keys of an object in first-occurrence order (the enumeration order
of JavaScript string keys). -/
def firstKeys (fields : List (String × Json)) : List String :=
  fields.foldl (fun acc e => if e.1 ∈ acc then acc else acc ++ [e.1]) []

/-- JavaScript member access `j[k]` (`none` models `undefined`).  Arrays
and primitive strings expose index keys. -/
def jsGet : Json → String → Option Json
  | .obj fields, k => lookupLastField fields k
  | .arr items, k => (items.enum.find? (fun e => toString e.1 == k)).map (·.2)
  | .str s, k =>
    (s.data.enum.find? (fun e => toString e.1 == k)).map
      (fun e => Json.str (String.mk [e.2]))
  | _, _ => none

/-- JavaScript truthiness of a (possibly `undefined`) value. -/
def jsTruthy : Option Json → Bool
  | none => false
  | some .null => false
  | some (.bool b) => b
  | some (.num n) => n != 0
  | some (.str s) => s ≠ ""
  | some (.arr _) => true
  | some (.obj _) => true

/-- The JavaScript `in` operator `k in j`: key membership for objects,
index membership for arrays; applying it to a primitive throws. -/
def jsIn (k : String) : Json → Except JsError Bool
  | .obj fields => .ok (decide (k ∈ fields.map (·.1)))
  | .arr items => .ok (decide (k ∈ items.enum.map (fun e => toString e.1)))
  | _ => .error .typeError

/-- `Object.keys(j)`: key list for objects, index lists for arrays and
strings, `[]` for boxed numbers and booleans; throws on `null`. -/
def jsObjectKeys : Json → Except JsError (List String)
  | .obj fields => .ok (firstKeys fields)
  | .arr items => .ok (items.enum.map (fun e => toString e.1))
  | .str s => .ok (s.data.enum.map (fun e => toString e.1))
  | .num _ => .ok []
  | .bool _ => .ok []
  | .null => .error .typeError

/-- The enumerable own properties visited by `for (var p in j)`, as
key/value pairs. -/
def enumOwnProps : Json → List (String × Json)
  | .obj fields => (firstKeys fields).filterMap
      (fun k => (lookupLastField fields k).map (fun v => (k, v)))
  | .arr items => items.enum.map (fun e => (toString e.1, e.2))
  | .str s => s.data.enum.map (fun e => (toString e.1, Json.str (String.mk [e.2])))
  | _ => []

/-- `JSON.stringify`, used only to render diagnostic log lines. -/
def Json.stringify : Json → String
  | .null => "null"
  | .bool true => "true"
  | .bool false => "false"
  | .num n => toString n
  | .str s => "\"" ++ s ++ "\""
  | .arr items =>
    "[" ++ String.intercalate "," (items.attach.map (fun x => x.1.stringify)) ++ "]"
  | .obj fields =>
    "\x7b" ++
      String.intercalate ","
        (fields.attach.map (fun e => "\"" ++ e.1.1 ++ "\":" ++ e.1.2.stringify)) ++
      "\x7d"
  decreasing_by
  · simp only [Json.arr.sizeOf_spec]
    have := List.sizeOf_lt_of_mem x.2
    omega
  · simp only [Json.obj.sizeOf_spec]
    have h1 := List.sizeOf_lt_of_mem e.2
    have h2 : sizeOf e.1.2 < sizeOf e.1 := by
      obtain ⟨⟨k, v⟩, hm⟩ := e
      simp only [Prod.mk.sizeOf_spec]
      omega
    omega

/-- Whether a value has `typeof j === 'object'` and is truthy: only objects
and arrays pass the guard of `buildDartTypeFromJsonschema`. -/
def Json.isObjLike : Json → Bool
  | .obj _ => true
  | .arr _ => true
  | _ => false

theorem sizeOf_string_mk (l : List Char) : sizeOf (String.mk l) = 1 + sizeOf l := rfl

theorem sizeOf_singleton_le_of_mem {c : Char} {l : List Char} (h : c ∈ l) :
    sizeOf [c] ≤ sizeOf l := by
  induction l with
  | nil => cases h
  | cons x xs ih =>
    rcases List.mem_cons.mp h with h | h
    · subst h
      simp only [List.cons.sizeOf_spec, List.nil.sizeOf_spec]
      have : 1 ≤ sizeOf xs := by
        cases xs <;> simp only [List.cons.sizeOf_spec, List.nil.sizeOf_spec] <;> omega
      omega
    · have := ih h
      simp only [List.cons.sizeOf_spec] at *
      omega

theorem sizeOf_snd_mem_enum {α : Type _} [SizeOf α] {l : List α} {e : Nat × α}
    (h : e ∈ l.enum) : e.2 ∈ l := by
  have := List.mem_enum_iff_getElem?.mp h
  exact List.getElem?_mem this

theorem lookupLastField_sizeOf_lt {fields : List (String × Json)} {k : String} {v : Json}
    (h : lookupLastField fields k = some v) : sizeOf v < sizeOf fields := by
  unfold lookupLastField at h
  rcases Option.map_eq_some'.mp h with ⟨e, he, hv⟩
  have hmem : e ∈ fields := List.mem_reverse.mp (List.mem_of_find?_eq_some he)
  have h1 : sizeOf e < sizeOf fields := List.sizeOf_lt_of_mem hmem
  have h2 : sizeOf e.2 < sizeOf e := by
    obtain ⟨a, b⟩ := e
    simp only [Prod.mk.sizeOf_spec]
    omega
  subst hv
  omega

theorem jsGet_sizeOf_lt {j : Json} (hj : j.isObjLike = true) {k : String} {v : Json}
    (h : jsGet j k = some v) : sizeOf v < sizeOf j := by
  cases j with
  | obj fields =>
    have := @lookupLastField_sizeOf_lt fields k v h
    simp only [Json.obj.sizeOf_spec]
    omega
  | arr items =>
    simp only [jsGet] at h
    rcases Option.map_eq_some'.mp h with ⟨e, he, hv⟩
    have hmem : e.2 ∈ items := sizeOf_snd_mem_enum (List.mem_of_find?_eq_some he)
    have h1 : sizeOf e.2 < sizeOf items := List.sizeOf_lt_of_mem hmem
    subst hv
    simp only [Json.arr.sizeOf_spec]
    omega
  | null => simp [Json.isObjLike] at hj
  | bool b => simp [Json.isObjLike] at hj
  | num n => simp [Json.isObjLike] at hj
  | str s => simp [Json.isObjLike] at hj

theorem enumOwnProps_sizeOf_le {j : Json} {p : String} {v : Json}
    (h : (p, v) ∈ enumOwnProps j) : sizeOf v ≤ sizeOf j := by
  cases j with
  | obj fields =>
    simp only [enumOwnProps, List.mem_filterMap] at h
    rcases h with ⟨k, _, hk⟩
    rcases Option.map_eq_some'.mp hk with ⟨w, hw, hpv⟩
    cases hpv
    have := lookupLastField_sizeOf_lt hw
    simp only [Json.obj.sizeOf_spec]
    omega
  | arr items =>
    simp only [enumOwnProps, List.mem_map] at h
    rcases h with ⟨e, he, hpv⟩
    have hmem : e.2 ∈ items := sizeOf_snd_mem_enum he
    have h1 : sizeOf e.2 < sizeOf items := List.sizeOf_lt_of_mem hmem
    have hv : v = e.2 := by
      cases hpv
      rfl
    subst hv
    simp only [Json.arr.sizeOf_spec]
    omega
  | str s =>
    simp only [enumOwnProps, List.mem_map] at h
    rcases h with ⟨e, he, hpv⟩
    have hmem : e.2 ∈ s.data := sizeOf_snd_mem_enum he
    have h1 : sizeOf [e.2] ≤ sizeOf s.data := sizeOf_singleton_le_of_mem hmem
    have hv : v = Json.str (String.mk [e.2]) := by
      cases hpv
      rfl
    subst hv
    simp only [Json.str.sizeOf_spec, sizeOf_string_mk]
    have hs : sizeOf s = 1 + sizeOf s.data := by
      cases s
      rfl
    omega
  | null => simp [enumOwnProps] at h
  | bool b => simp [enumOwnProps] at h
  | num n => simp [enumOwnProps] at h

/-! ## JSON-schema derivation -/

/-- JavaScript strict comparison `v === 's'` of a (possibly `undefined`)
value against a string literal. -/
def jsEqStr (v : Option Json) (s : String) : Bool :=
  match v with
  | some (.str t) => t == s
  | _ => false

/-- The `for (var p in schema.properties)` loop of the object branch,
parameterized by the recursive schema builder so the definition stays
structurally recursive (and hence kernel-evaluable): recursively builds
each property type, applies the required-check of the source
(`'required' in schema.properties && !(p in schema.properties.required)`)
and registers the result under the property name in both the registry and
the class property map. -/
def buildJsonschemaPropsWith
    (f : Json → Option String → PostgresToDartMap →
      Except JsError (DartType × PostgresToDartMap × List String))
    (propsVal : Json) :
    List (String × Json) → PostgresToDartMap → PostgresToDartMap →
    Except JsError (PostgresToDartMap × PostgresToDartMap × List String)
  | [], classProps, ptdMap => .ok (classProps, ptdMap, [])
  | (p, pv) :: rest, classProps, ptdMap =>
    match f pv (some p) ptdMap with
    | .error e => .error e
    | .ok (newType0, m1, logs1) =>
      match jsIn "required" propsVal with
      | .error e => .error e
      | .ok hasRequired =>
        match
          (if hasRequired then
            match jsGet propsVal "required" with
            | none => .error JsError.typeError -- unreachable: `in` found the key
            | some reqVal =>
              match jsIn p reqVal with
              | .error e => .error e
              | .ok pIn => .ok (if !pIn then newNullDartType newType0 else newType0)
          else (.ok newType0 : Except JsError DartType)) with
        | .error e => .error e
        | .ok newType =>
          match buildJsonschemaPropsWith f propsVal rest
              (classProps ++ [(p, none, newType)]) (m1 ++ [(p, none, newType)]) with
          | .error e => .error e
          | .ok (cp, m3, logs2) => .ok (cp, m3, logs1 ++ logs2)

/-- `buildDartTypeFromJsonschema(schema, name, ptdMap)`: derives a
`DartType` from an embedded JSON-schema document, returning the derived
type, the updated registry and the diagnostic log lines.  Branches marked
unreachable guard member lookups that the preceding truthiness test
already established.  The JavaScript recursion carries no fuel; it always
terminates because every recursive call descends into a strictly smaller
member value.  The embedding passes explicit fuel and
`buildDartTypeFromJsonschema_no_fuelOut` below proves any fuel of at
least `sizeOf schema` sufficient, so the `fuelOut` error is
unreachable. -/
def buildDartTypeFromJsonschema :
    Nat → Json → Option String → PostgresToDartMap →
    Except JsError (DartType × PostgresToDartMap × List String)
  | 0, _, _, _ => .error .fuelOut
  | fuel + 1, schema, name, ptdMap =>
    if schema.isObjLike = true then
      if jsEqStr (jsGet schema "type") "array" && jsTruthy (jsGet schema "items") then
        match jsGet schema "items" with
        | none => .error .typeError -- unreachable: the guard checked a truthy member
        | some itemsVal =>
          let newTypeName := (name.getD "undefined") ++ "_element"
          match buildDartTypeFromJsonschema fuel itemsVal (some newTypeName) ptdMap with
          | .error e => .error e
          | .ok (newType, m1, logs1) =>
            .ok (.listDartType newType, m1 ++ [(newTypeName, none, newType)], logs1)
      else if jsEqStr (jsGet schema "type") "object" &&
          jsTruthy (jsGet schema "properties") then
        match name with
        | none =>
          .ok (.mapDartType (.builtinDartType .str) (.builtinDartType .dynamic), ptdMap,
            ["No name (undefined) provided for " ++ schema.stringify])
        | some nameStr =>
          match jsGet schema "properties" with
          | none => .error .typeError -- unreachable: the guard checked a truthy member
          | some propsVal =>
            match buildJsonschemaPropsWith (buildDartTypeFromJsonschema fuel) propsVal
                (enumOwnProps propsVal) [] ptdMap with
            | .error e => .error e
            | .ok (classProps, m1, logs1) =>
              match formatForDartClassName nameStr with
              | .error e => .error e
              | .ok clsName =>
                .ok (.classDartConstructForJsonschema clsName classProps, m1, logs1)
      else
        if jsEqStr (jsGet schema "type") "string" then
          .ok (.builtinDartType .str, ptdMap, [])
        else if jsEqStr (jsGet schema "type") "integer" then
          .ok (.builtinDartType .int, ptdMap, [])
        else if jsEqStr (jsGet schema "type") "number" then
          .ok (.builtinDartType .double, ptdMap, [])
        else if jsEqStr (jsGet schema "type") "boolean" then
          .ok (.builtinDartType .bool, ptdMap, [])
        else if jsEqStr (jsGet schema "type") "null" then
          .ok (newNullDartType (.builtinDartType .dynamic), ptdMap, [])
        else .ok (.builtinDartType .dynamic, ptdMap, [])
    else
      .ok (.mapDartType (.builtinDartType .str) (.builtinDartType .dynamic), ptdMap, [])

/-- One unfolding step of the builder (the matcher equation, stated
explicitly because the equation generator does not handle the nested
branches). -/
theorem buildDartTypeFromJsonschema_succ (fuel : Nat) (schema : Json)
    (name : Option String) (ptdMap : PostgresToDartMap) :
    buildDartTypeFromJsonschema (fuel + 1) schema name ptdMap =
    if schema.isObjLike = true then
      if jsEqStr (jsGet schema "type") "array" && jsTruthy (jsGet schema "items") then
        match jsGet schema "items" with
        | none => .error .typeError -- unreachable: the guard checked a truthy member
        | some itemsVal =>
          let newTypeName := (name.getD "undefined") ++ "_element"
          match buildDartTypeFromJsonschema fuel itemsVal (some newTypeName) ptdMap with
          | .error e => .error e
          | .ok (newType, m1, logs1) =>
            .ok (.listDartType newType, m1 ++ [(newTypeName, none, newType)], logs1)
      else if jsEqStr (jsGet schema "type") "object" &&
          jsTruthy (jsGet schema "properties") then
        match name with
        | none =>
          .ok (.mapDartType (.builtinDartType .str) (.builtinDartType .dynamic), ptdMap,
            ["No name (undefined) provided for " ++ schema.stringify])
        | some nameStr =>
          match jsGet schema "properties" with
          | none => .error .typeError -- unreachable: the guard checked a truthy member
          | some propsVal =>
            match buildJsonschemaPropsWith (buildDartTypeFromJsonschema fuel) propsVal
                (enumOwnProps propsVal) [] ptdMap with
            | .error e => .error e
            | .ok (classProps, m1, logs1) =>
              match formatForDartClassName nameStr with
              | .error e => .error e
              | .ok clsName =>
                .ok (.classDartConstructForJsonschema clsName classProps, m1, logs1)
      else
        if jsEqStr (jsGet schema "type") "string" then
          .ok (.builtinDartType .str, ptdMap, [])
        else if jsEqStr (jsGet schema "type") "integer" then
          .ok (.builtinDartType .int, ptdMap, [])
        else if jsEqStr (jsGet schema "type") "number" then
          .ok (.builtinDartType .double, ptdMap, [])
        else if jsEqStr (jsGet schema "type") "boolean" then
          .ok (.builtinDartType .bool, ptdMap, [])
        else if jsEqStr (jsGet schema "type") "null" then
          .ok (newNullDartType (.builtinDartType .dynamic), ptdMap, [])
        else .ok (.builtinDartType .dynamic, ptdMap, [])
    else
      .ok (.mapDartType (.builtinDartType .str) (.builtinDartType .dynamic), ptdMap, [])
  := rfl


/-! ## Enum comment translations (companion template `dart.ts`)

The companion template validates a locale-keyed translation table embedded
in the enum type's comment.  `JSON.parse(comment)` is modeled by its
result (`Except Unit Json`, where `.error` stands for a comment string
that is not valid JSON). -/

namespace DartTs

/-- `SUPPORTED_LOCALES` from the companion template. -/
def SUPPORTED_LOCALES : List String := ["en", "it"]

/-- `isTranslation(translation, enumValues)`: for every supported locale,
the locale must be a key of the table and every key of the locale's table
must be one of the enum's values.  Mirrors the JavaScript evaluation
order, including the `TypeError`s of `in` on primitives and of
`Object.keys(null)`. -/
def isTranslation (translation : Json) (enumValues : List String) :
    Except JsError Bool := do
  let elems ← SUPPORTED_LOCALES.mapM (fun v => do
    let b ← jsIn v translation
    if b then
      match jsGet translation v with
      | some tv => do
        let ks ← jsObjectKeys tv
        pure ((ks.filter (fun k => decide (k ∉ enumValues))).length == 0)
      | none => Except.error JsError.typeError -- unreachable: `in` found the key
    else
      pure false)
  return elems.all id

/-- `isEnumDartComment(comment, enumValues)`. -/
def isEnumDartComment (comment : Json) (enumValues : List String) :
    Except JsError Bool := do
  let b ← jsIn "translation" comment
  if !b then
    return false
  else
    match jsGet comment "translation" with
    | some tr => isTranslation tr enumValues
    | none => Except.error JsError.typeError -- unreachable: `in` found the key

/-- The fields of the companion template's `EnumDartConstruct` relevant to
comment validation (`comment` holds the accepted translation table, `null`
otherwise). -/
structure EnumDartConstruct where
  originalName : String
  values : List String
  comment : Option Json
  deriving Repr

/-- `new EnumDartConstruct(name, values, comment)` of the companion
template: a non-null comment is `JSON.parse`d (throwing on invalid JSON),
validated, and attached only when validation succeeds; a failed validation
logs a diagnostic (the log line renders the parsed comment). -/
def newEnumDartConstruct (name : String) (values : List String)
    (comment : Option (Except Unit Json)) :
    Except JsError (EnumDartConstruct × List String) :=
  match comment with
  | none => .ok ({ originalName := name, values := values, comment := none }, [])
  | some (.error _) => .error .jsonParseError
  | some (.ok parsedComment) => do
    let valid ← isEnumDartComment parsedComment values
    if valid then
      .ok ({ originalName := name, values := values, comment := some parsedComment }, [])
    else
      .ok ({ originalName := name, values := values, comment := none },
        ["Instatiating " ++ name ++ ": comment " ++ parsedComment.stringify ++
          " is not a valid enum comment"])

end DartTs

/-! ## Dependency sorting

`sortTypesByDependency` builds a node per type (keyed by `id`, later
duplicate ids overwriting in place as `Map.set` does), runs a
depth-first search with a three-state mark, and finally moves array-marked
types to the end.

Modeling notes:

* The JavaScript recursion carries no fuel; it always either throws or
  terminates because every nested call stacks a distinct `inStack` node.
  The embedding passes explicit fuel and `dfs_no_fuelOut` below proves the
  bound used by `sortTypesByDependency` sufficient, so the `fuelOut` error
  is unreachable.
* `new Set(...)` deduplicates the dependency list; the embedding keeps the
  filtered list as is, which is observationally equal: a repeated
  dependency is already `visited` (or missing) on the second call, which
  returns without effect, and sibling calls reuse the same fuel.
* The final `sorted.sort(comparator)` uses a comparator that reports every
  non-array pair equal, every array-marked element greater, and is
  inconsistent on pairs of array-marked elements.  The engine's stable
  sort therefore keeps non-array elements in DFS order, before all
  array-marked elements; the embedding models it as this stable partition.
  No theorem below depends on the relative order of two array-marked
  types. -/

/-- A node of the dependency graph (`TypeNode` in the source). -/
structure TypeNode where
  type : PostgresType
  dependencies : List Nat
  visited : Bool
  inStack : Bool
  deriving Repr, DecidableEq

/-- The adjacency map: nodes in insertion order, keyed by `type.id`. -/
abbrev TypeMap := List TypeNode

/-- `typeMap.get(nodeId)`. -/
def findNode (m : TypeMap) (nodeId : Nat) : Option TypeNode :=
  m.find? (fun n => n.type.id == nodeId)

/-- The initial node of a type: dependencies are the attribute type ids
with self-references excluded. -/
def mkTypeNode (t : PostgresType) : TypeNode :=
  { type := t
    dependencies := (t.attributes.map (·.type_id)).filter (fun i => i ≠ t.id)
    visited := false
    inStack := false }

/-- `typeMap.set(node.type.id, node)`: replaces in place or appends. -/
def setEntry (m : TypeMap) (node : TypeNode) : TypeMap :=
  match m with
  | [] => [node]
  | n :: ns => if n.type.id == node.type.id then node :: ns else n :: setEntry ns node

/-- Graph initialization of `sortTypesByDependency`. -/
def buildTypeMap (types : List PostgresType) : TypeMap :=
  types.foldl (fun m t => setEntry m (mkTypeNode t)) []

/-- `node.inStack = true`. -/
def markInStack (m : TypeMap) (nodeId : Nat) : TypeMap :=
  m.map (fun n => if n.type.id == nodeId then { n with inStack := true } else n)

/-- `node.visited = true; node.inStack = false`. -/
def markDone (m : TypeMap) (nodeId : Nat) : TypeMap :=
  m.map (fun n =>
    if n.type.id == nodeId then { n with visited := true, inStack := false } else n)

/-- The mutable state of one `sortTypesByDependency` run. -/
structure SortState where
  typeMap : TypeMap
  sorted : List PostgresType
  deriving Repr, DecidableEq

/-- The error channel: the thrown circular-dependency `Error` plus the
artificial fuel exhaustion of the embedding (proved unreachable). -/
inductive SortError where
  | circular (name : String)
  | fuelOut
  deriving Repr, DecidableEq

/-- The `for (const depId of node.dependencies)` loop inside `dfs`,
parameterized by the recursive visit (`dfs` at the next fuel level), which
keeps the whole definition structurally recursive and kernel-computable. -/
def dfsDepsWith (f : Nat → SortState → Except SortError SortState) :
    List Nat → SortState → Except SortError SortState
  | [], st => .ok st
  | depId :: deps, st =>
    match f depId st with
    | .error e => .error e
    | .ok st' => dfsDepsWith f deps st'

/-- The `dfs(nodeId)` closure of `sortTypesByDependency`. -/
def dfs : Nat → Nat → SortState → Except SortError SortState
  | 0, _, _ => .error .fuelOut
  | fuel + 1, nodeId, st =>
    match findNode st.typeMap nodeId with
    | none => .ok st
    | some node =>
      if node.inStack then .error (.circular node.type.name)
      else if node.visited then .ok st
      else
        match dfsDepsWith (dfs fuel) node.dependencies
            { st with typeMap := markInStack st.typeMap nodeId } with
        | .error e => .error e
        | .ok st2 =>
          .ok { typeMap := markDone st2.typeMap nodeId
                sorted := st2.sorted ++ [node.type] }

/-- The dependency loop at a given fuel level. -/
def dfsDeps (fuel : Nat) : List Nat → SortState → Except SortError SortState :=
  dfsDepsWith (dfs fuel)

/-- The `for (const nodeId of typeMap.keys())` loop: runs `dfs` on every
not-yet-visited key.  (`dfs` only flips node flags, so the key list is
fixed up front; a missing key is unreachable but skipped for totality.) -/
def dfsAll : Nat → List Nat → SortState → Except SortError SortState
  | _, [], st => .ok st
  | fuel, nodeId :: rest, st =>
    match findNode st.typeMap nodeId with
    | none => dfsAll fuel rest st
    | some n =>
      if n.visited then dfsAll fuel rest st
      else
        match dfs fuel nodeId st with
        | .error e => .error e
        | .ok st' => dfsAll fuel rest st'

/-- `sorted.sort(arrays-last comparator)` as a stable partition: non-array
types keep DFS order and come first, array-marked types last. -/
def sortArraysLast (l : List PostgresType) : List PostgresType :=
  l.filter (fun t => !startsWithUnderscore t.name) ++
    l.filter (fun t => startsWithUnderscore t.name)

/-- `sortTypesByDependency(types)`. -/
def sortTypesByDependency (types : List PostgresType) :
    Except SortError (List PostgresType) :=
  let typeMap := buildTypeMap types
  match dfsAll (typeMap.length + 1) (typeMap.map (fun n => n.type.id))
      { typeMap := typeMap, sorted := [] } with
  | .error e => .error e
  | .ok st => .ok (sortArraysLast st.sorted)

/-! ## Required-type collection -/

/-- `new Map(allTypes.map((type) => [type.id, type])).get(typeId)`:
later duplicate keys overwrite earlier ones. -/
def lookupTypeById (allTypes : List PostgresType) (typeId : Nat) : Option PostgresType :=
  allTypes.reverse.find? (fun t => t.id == typeId)

/-- `new Map(allTypes.map((type) => [type.name, type])).get(name)`. -/
def lookupTypeByName (allTypes : List PostgresType) (nm : String) : Option PostgresType :=
  allTypes.reverse.find? (fun t => t.name == nm)

/-- `Set.prototype.add`: keeps first-insertion order, ignores duplicates. -/
def insertIdOnce (l : List Nat) (x : Nat) : List Nat :=
  if x ∈ l then l else l ++ [x]

/-- The direct-reference scan of `getRequiredTypes`: resolves each column's
format (logging a diagnostic when it names no catalog type) and, for
array formats, also the non-array base type. -/
def scanColumnStep (allTypes : List PostgresType)
    (acc : List Nat × List String) (column : PostgresColumn) :
    List Nat × List String :=
  let step1 :=
    match lookupTypeByName allTypes column.format with
    | some t => (insertIdOnce acc.1 t.id, acc.2)
    | none =>
      (acc.1,
        acc.2 ++
          ["Type not found for column " ++ column.name ++ ": format: " ++
            column.format ++ "\tdata_type: " ++ column.data_type])
  match
    (if startsWithUnderscore column.format then
      lookupTypeByName allTypes (dropFirstChar column.format)
    else none) with
  | some nonArrayType => (insertIdOnce step1.1 nonArrayType.id, step1.2)
  | none => step1

def scanColumnFormats (allTypes : List PostgresType) (columns : List PostgresColumn) :
    List Nat × List String :=
  columns.foldl (scanColumnStep allTypes) ([], [])

/-- The id-list loop of the collection phase, parameterized by the
recursive visit, keeping the definition structurally recursive. -/
def collectListWith (f : Nat → List Nat → Except SortError (List Nat)) :
    List Nat → List Nat → Except SortError (List Nat)
  | [], acc => .ok acc
  | i :: is, acc =>
    match f i acc with
    | .error e => .error e
    | .ok acc' => collectListWith f is acc'

/-- `collectDependencies(typeId)` of `getRequiredTypes`: adds the type to
the required set (when it is a catalog type and not yet present), then
recurses into attribute references and the array base type.  The fuel is
an artifact of the embedding, proved sufficient below. -/
def collectDependencies (allTypes : List PostgresType) :
    Nat → Nat → List Nat → Except SortError (List Nat)
  | 0, _, _ => .error .fuelOut
  | fuel + 1, typeId, acc =>
    if typeId ∈ acc then .ok acc
    else
      match lookupTypeById allTypes typeId with
      | none => .ok acc
      | some t =>
        match collectListWith (collectDependencies allTypes fuel)
            (t.attributes.map (·.type_id)) (acc ++ [typeId]) with
        | .error e => .error e
        | .ok acc2 =>
          if startsWithUnderscore t.name then
            match lookupTypeByName allTypes (dropFirstChar t.name) with
            | some nonArrayType => collectDependencies allTypes fuel nonArrayType.id acc2
            | none => .ok acc2
          else .ok acc2

/-- The `for (const attr of type.attributes)` loop inside
`collectDependencies` (also used for the top-level loop over the direct
ids). -/
def collectDepsList (allTypes : List PostgresType) (fuel : Nat) :
    List Nat → List Nat → Except SortError (List Nat) :=
  collectListWith (collectDependencies allTypes fuel)

/-- `getRequiredTypes(allTypes, columns)`: direct scan, transitive
collection, materialization (every collected id is a catalog key, so the
`filterMap` keeps them all), and dependency sort.  Returns the sorted
required types together with the diagnostic log lines of the scan. -/
def getRequiredTypes (allTypes : List PostgresType) (columns : List PostgresColumn) :
    Except SortError (List PostgresType × List String) :=
  let scanned := scanColumnFormats allTypes columns
  match collectDepsList allTypes (allTypes.length + 1) scanned.1 [] with
  | .error e => .error e
  | .ok allRequiredTypeIds =>
    match sortTypesByDependency
        (allRequiredTypeIds.filterMap (lookupTypeById allTypes)) with
    | .error e => .error e
    | .ok sorted => .ok (sorted, scanned.2)

/-- The transitive closure that `getRequiredTypes` is specified to compute:
ids of catalog types directly referenced by a column's format (or, for an
array format, its base name), closed under attribute references and
array-to-base references.  Each rule adds an id exactly when the
collection phase would (a reference is followed only when it resolves in
the catalog). -/
inductive RequiredTypeId (allTypes : List PostgresType)
    (columns : List PostgresColumn) : Nat → Prop where
  | direct (c : PostgresColumn) (t : PostgresType) :
      c ∈ columns → lookupTypeByName allTypes c.format = some t →
      RequiredTypeId allTypes columns t.id
  | directBase (c : PostgresColumn) (t : PostgresType) :
      c ∈ columns → startsWithUnderscore c.format = true →
      lookupTypeByName allTypes (dropFirstChar c.format) = some t →
      RequiredTypeId allTypes columns t.id
  | attrRef (typeId : Nat) (t : PostgresType) (a : PostgresTypeAttribute)
      (t' : PostgresType) :
      RequiredTypeId allTypes columns typeId →
      lookupTypeById allTypes typeId = some t → a ∈ t.attributes →
      lookupTypeById allTypes a.type_id = some t' →
      RequiredTypeId allTypes columns a.type_id
  | arrayBase (typeId : Nat) (t : PostgresType) (t' : PostgresType) :
      RequiredTypeId allTypes columns typeId →
      lookupTypeById allTypes typeId = some t → startsWithUnderscore t.name = true →
      lookupTypeByName allTypes (dropFirstChar t.name) = some t' →
      RequiredTypeId allTypes columns t'.id

/-! ### Basic facts about the node map -/

/-- The key list of the node map. -/
def mapKeys (m : TypeMap) : List Nat := m.map (fun n => n.type.id)

/-- The flag-independent part of a node: its type and dependency list. -/
def nodeSig (n : TypeNode) : PostgresType × List Nat := (n.type, n.dependencies)

/-- The flag-independent part of the whole map: `dfs` only flips flags, so
this is invariant across a run. -/
def graphSig (m : TypeMap) : List (PostgresType × List Nat) := m.map nodeSig

/-- The `visited` flag of a node (`false` for a missing node). -/
def visitedAt (m : TypeMap) (nodeId : Nat) : Bool :=
  ((findNode m nodeId).map (·.visited)).getD false

/-- The `inStack` flag of a node (`false` for a missing node). -/
def inStackAt (m : TypeMap) (nodeId : Nat) : Bool :=
  ((findNode m nodeId).map (·.inStack)).getD false

/-- Number of nodes that are neither visited nor on the stack; the measure
that bounds the recursion depth of `dfs`. -/
def freeCount (m : TypeMap) : Nat :=
  (m.filter (fun n => !n.visited && !n.inStack)).length

/-- The dependency edge relation of the graph held in the map. -/
def edgeOf (m : TypeMap) (a b : Nat) : Prop :=
  ∃ n, findNode m a = some n ∧ b ∈ n.dependencies

theorem findNode_some_key {m : TypeMap} {q : Nat} {n : TypeNode}
    (h : findNode m q = some n) : n.type.id = q := by
  have := List.find?_some h
  simpa using this

theorem findNode_some_mem {m : TypeMap} {q : Nat} {n : TypeNode}
    (h : findNode m q = some n) : n ∈ m :=
  List.mem_of_find?_eq_some h

theorem findNode_map {m : TypeMap} {f : TypeNode → TypeNode}
    (hf : ∀ n, (f n).type.id = n.type.id) (q : Nat) :
    findNode (m.map f) q = (findNode m q).map f := by
  unfold findNode
  rw [List.find?_map]
  have hfun : ((fun n => n.type.id == q) ∘ f) = (fun n : TypeNode => n.type.id == q) := by
    funext n
    simp [Function.comp, hf n]
  rw [hfun]

theorem findNode_markInStack (m : TypeMap) (nodeId q : Nat) :
    findNode (markInStack m nodeId) q =
      (findNode m q).map
        (fun n => if n.type.id == nodeId then { n with inStack := true } else n) := by
  apply findNode_map
  intro n
  by_cases h : n.type.id == nodeId <;> simp [h]

theorem findNode_markDone (m : TypeMap) (nodeId q : Nat) :
    findNode (markDone m nodeId) q =
      (findNode m q).map
        (fun n =>
          if n.type.id == nodeId then { n with visited := true, inStack := false }
          else n) := by
  apply findNode_map
  intro n
  by_cases h : n.type.id == nodeId <;> simp [h]

theorem findNode_markInStack_ne {m : TypeMap} {nodeId q : Nat} (h : q ≠ nodeId) :
    findNode (markInStack m nodeId) q = findNode m q := by
  rw [findNode_markInStack]
  cases hf : findNode m q with
  | none => rfl
  | some n =>
    have hk : n.type.id = q := findNode_some_key hf
    simp [hk, h]

theorem findNode_markDone_ne {m : TypeMap} {nodeId q : Nat} (h : q ≠ nodeId) :
    findNode (markDone m nodeId) q = findNode m q := by
  rw [findNode_markDone]
  cases hf : findNode m q with
  | none => rfl
  | some n =>
    have hk : n.type.id = q := findNode_some_key hf
    simp [hk, h]

theorem findNode_markInStack_self (m : TypeMap) (nodeId : Nat) :
    findNode (markInStack m nodeId) nodeId =
      (findNode m nodeId).map (fun n => { n with inStack := true }) := by
  rw [findNode_markInStack]
  cases hf : findNode m nodeId with
  | none => rfl
  | some n =>
    have hk : n.type.id = nodeId := findNode_some_key hf
    simp [hk]

theorem findNode_markDone_self (m : TypeMap) (nodeId : Nat) :
    findNode (markDone m nodeId) nodeId =
      (findNode m nodeId).map (fun n => { n with visited := true, inStack := false }) := by
  rw [findNode_markDone]
  cases hf : findNode m nodeId with
  | none => rfl
  | some n =>
    have hk : n.type.id = nodeId := findNode_some_key hf
    simp [hk]

theorem graphSig_markInStack (m : TypeMap) (nodeId : Nat) :
    graphSig (markInStack m nodeId) = graphSig m := by
  unfold graphSig markInStack
  rw [List.map_map]
  apply List.map_congr_left
  intro n _
  by_cases h : n.type.id == nodeId <;> simp [Function.comp, h, nodeSig]

theorem graphSig_markDone (m : TypeMap) (nodeId : Nat) :
    graphSig (markDone m nodeId) = graphSig m := by
  unfold graphSig markDone
  rw [List.map_map]
  apply List.map_congr_left
  intro n _
  by_cases h : n.type.id == nodeId <;> simp [Function.comp, h, nodeSig]

theorem mapKeys_eq_graphSig (m : TypeMap) :
    mapKeys m = (graphSig m).map (fun s => s.1.id) := by
  unfold mapKeys graphSig
  rw [List.map_map]
  rfl

theorem mapKeys_congr {m m' : TypeMap} (h : graphSig m = graphSig m') :
    mapKeys m = mapKeys m' := by
  rw [mapKeys_eq_graphSig, mapKeys_eq_graphSig, h]

/-- The type/dependency view of one node lookup. -/
def nodeSigAt (m : TypeMap) (q : Nat) : Option (PostgresType × List Nat) :=
  (findNode m q).map nodeSig

theorem nodeSigAt_eq_find_graphSig (m : TypeMap) (q : Nat) :
    nodeSigAt m q = (graphSig m).find? (fun s => s.1.id == q) := by
  unfold nodeSigAt graphSig findNode
  rw [List.find?_map]
  rfl

theorem nodeSigAt_congr {m m' : TypeMap} (h : graphSig m = graphSig m') (q : Nat) :
    nodeSigAt m q = nodeSigAt m' q := by
  rw [nodeSigAt_eq_find_graphSig, nodeSigAt_eq_find_graphSig, h]

theorem findNode_none_congr {m m' : TypeMap} (h : graphSig m = graphSig m') {q : Nat} :
    findNode m q = none ↔ findNode m' q = none := by
  have := nodeSigAt_congr h q
  unfold nodeSigAt at this
  constructor <;> intro hq
  · cases hq' : findNode m' q with
    | none => rfl
    | some n => rw [hq, hq'] at this; simp at this
  · cases hq' : findNode m q with
    | none => rfl
    | some n => rw [hq, hq'] at this; simp at this

theorem findNode_sig_congr {m m' : TypeMap} (h : graphSig m = graphSig m') {q : Nat}
    {n : TypeNode} (hq : findNode m q = some n) :
    ∃ n', findNode m' q = some n' ∧ n'.type = n.type ∧
      n'.dependencies = n.dependencies := by
  have hsig := nodeSigAt_congr h q
  unfold nodeSigAt at hsig
  rw [hq] at hsig
  cases hq' : findNode m' q with
  | none => rw [hq'] at hsig; simp at hsig
  | some n' =>
    rw [hq'] at hsig
    simp only [Option.map_some'] at hsig
    have heq : nodeSig n = nodeSig n' := Option.some.inj hsig
    unfold nodeSig at heq
    have ht : n.type = n'.type := congrArg Prod.fst heq
    have hd : n.dependencies = n'.dependencies := congrArg Prod.snd heq
    exact ⟨n', rfl, ht.symm, hd.symm⟩

theorem edgeOf_congr {m m' : TypeMap} (h : graphSig m = graphSig m') {a b : Nat} :
    edgeOf m a b → edgeOf m' a b := by
  rintro ⟨n, hn, hb⟩
  obtain ⟨n', hn', ht, hd⟩ := findNode_sig_congr h hn
  exact ⟨n', hn', hd ▸ hb⟩

theorem mem_mapKeys {m : TypeMap} {q : Nat} :
    q ∈ mapKeys m ↔ ∃ n ∈ m, n.type.id = q := by
  unfold mapKeys
  simp [List.mem_map]

theorem findNode_cons_self {hd : TypeNode} {tl : List TypeNode} {nodeId : Nat}
    (h : hd.type.id = nodeId) : findNode (hd :: tl) nodeId = some hd := by
  unfold findNode
  rw [List.find?_cons]
  have hc : (hd.type.id == nodeId) = true := by simp [h]
  rw [hc]

theorem findNode_cons_ne {hd : TypeNode} {tl : List TypeNode} {nodeId : Nat}
    (h : hd.type.id ≠ nodeId) : findNode (hd :: tl) nodeId = findNode tl nodeId := by
  unfold findNode
  rw [List.find?_cons]
  have hc : (hd.type.id == nodeId) = false := by simp [h]
  rw [hc]

theorem markInStack_not_mem {m : TypeMap} {nodeId : Nat} (h : nodeId ∉ mapKeys m) :
    markInStack m nodeId = m := by
  unfold markInStack
  have hfix : ∀ n ∈ m,
      (if n.type.id == nodeId then { n with inStack := true } else n) = n := by
    intro n hn
    have hne : n.type.id ≠ nodeId := by
      intro he
      exact h (mem_mapKeys.mpr ⟨n, hn, he⟩)
    simp [hne]
  exact (List.map_congr_left hfix).trans (by simp)

theorem markDone_not_mem {m : TypeMap} {nodeId : Nat} (h : nodeId ∉ mapKeys m) :
    markDone m nodeId = m := by
  unfold markDone
  have hfix : ∀ n ∈ m,
      (if n.type.id == nodeId then { n with visited := true, inStack := false } else n)
        = n := by
    intro n hn
    have hne : n.type.id ≠ nodeId := by
      intro he
      exact h (mem_mapKeys.mpr ⟨n, hn, he⟩)
    simp [hne]
  exact (List.map_congr_left hfix).trans (by simp)

theorem freeCount_cons (n : TypeNode) (m : TypeMap) :
    freeCount (n :: m) = (if !n.visited && !n.inStack then 1 else 0) + freeCount m := by
  unfold freeCount
  rw [List.filter_cons]
  by_cases h : (!n.visited && !n.inStack : Bool)
  · simp only [h, if_true, List.length_cons]
    omega
  · simp [h]

theorem freeCount_le_length (m : TypeMap) : freeCount m ≤ m.length :=
  List.length_filter_le _ m

theorem freeCount_markInStack {m : TypeMap} {nodeId : Nat} {n : TypeNode}
    (hnd : (mapKeys m).Nodup) (h : findNode m nodeId = some n)
    (hv : n.visited = false) (hs : n.inStack = false) :
    freeCount (markInStack m nodeId) + 1 = freeCount m := by
  induction m with
  | nil => simp [findNode] at h
  | cons hd tl ih =>
    have hnd' : hd.type.id ∉ mapKeys tl ∧ (mapKeys tl).Nodup := by
      simpa [mapKeys] using hnd
    unfold markInStack
    simp only [List.map_cons]
    rw [show (tl.map fun x =>
        if x.type.id == nodeId then { x with inStack := true } else x) =
        markInStack tl nodeId from rfl]
    by_cases hk : hd.type.id = nodeId
    · have hhd : hd = n := by
        rw [findNode_cons_self hk] at h
        exact Option.some.inj h
      have htl : markInStack tl nodeId = tl := markInStack_not_mem (hk ▸ hnd'.1)
      have hexp : (if hd.type.id == nodeId then { hd with inStack := true } else hd)
          = { hd with inStack := true } := by
        simp [hk]
      rw [hexp, htl, freeCount_cons, freeCount_cons]
      subst hhd
      simp [hv, hs]
      omega
    · have h' : findNode tl nodeId = some n := by
        rw [findNode_cons_ne hk] at h
        exact h
      have hexp : (if hd.type.id == nodeId then { hd with inStack := true } else hd)
          = hd := by
        simp [hk]
      rw [hexp, freeCount_cons, freeCount_cons]
      have := ih hnd'.2 h'
      omega

theorem freeCount_markDone {m : TypeMap} {nodeId : Nat} {n : TypeNode}
    (hnd : (mapKeys m).Nodup) (h : findNode m nodeId = some n)
    (hs : n.inStack = true) :
    freeCount (markDone m nodeId) = freeCount m := by
  induction m with
  | nil => simp [findNode] at h
  | cons hd tl ih =>
    have hnd' : hd.type.id ∉ mapKeys tl ∧ (mapKeys tl).Nodup := by
      simpa [mapKeys] using hnd
    unfold markDone
    simp only [List.map_cons]
    rw [show (tl.map fun x =>
        if x.type.id == nodeId then { x with visited := true, inStack := false }
        else x) = markDone tl nodeId from rfl]
    by_cases hk : hd.type.id = nodeId
    · have hhd : hd = n := by
        rw [findNode_cons_self hk] at h
        exact Option.some.inj h
      have htl : markDone tl nodeId = tl := markDone_not_mem (hk ▸ hnd'.1)
      have hexp : (if hd.type.id == nodeId
            then { hd with visited := true, inStack := false } else hd)
          = { hd with visited := true, inStack := false } := by
        simp [hk]
      rw [hexp, htl, freeCount_cons, freeCount_cons]
      subst hhd
      simp [hs]
    · have h' : findNode tl nodeId = some n := by
        rw [findNode_cons_ne hk] at h
        exact h
      have hexp : (if hd.type.id == nodeId
            then { hd with visited := true, inStack := false } else hd)
          = hd := by
        simp [hk]
      rw [hexp, freeCount_cons, freeCount_cons]
      have := ih hnd'.2 h'
      omega

theorem setEntry_mem {m : TypeMap} {node n : TypeNode} (h : n ∈ setEntry m node) :
    n = node ∨ n ∈ m := by
  induction m with
  | nil =>
    simp [setEntry] at h
    exact Or.inl h
  | cons hd tl ih =>
    unfold setEntry at h
    by_cases hk : hd.type.id == node.type.id
    · rw [if_pos hk] at h
      rcases List.mem_cons.mp h with h | h
      · exact Or.inl h
      · exact Or.inr (List.mem_cons_of_mem _ h)
    · rw [if_neg hk] at h
      rcases List.mem_cons.mp h with h | h
      · exact Or.inr (h ▸ List.mem_cons_self _ _)
      · rcases ih h with h | h
        · exact Or.inl h
        · exact Or.inr (List.mem_cons_of_mem _ h)

theorem setEntry_not_mem {m : TypeMap} {node : TypeNode}
    (h : node.type.id ∉ mapKeys m) : setEntry m node = m ++ [node] := by
  induction m with
  | nil => rfl
  | cons hd tl ih =>
    have h1 : node.type.id ≠ hd.type.id ∧ node.type.id ∉ mapKeys tl := by
      constructor
      · intro he
        exact h (mem_mapKeys.mpr ⟨hd, List.mem_cons_self _ _, he.symm⟩)
      · intro hm
        rcases mem_mapKeys.mp hm with ⟨n, hn, he⟩
        exact h (mem_mapKeys.mpr ⟨n, List.mem_cons_of_mem _ hn, he⟩)
    unfold setEntry
    have hk : (hd.type.id == node.type.id) = false := by
      simp
      exact fun he => h1.1 he.symm
    rw [hk, if_neg (by simp : ¬(false = true))]
    simp only [List.cons_append]
    rw [ih h1.2]

theorem mapKeys_setEntry_mem {m : TypeMap} {node : TypeNode}
    (h : node.type.id ∈ mapKeys m) : mapKeys (setEntry m node) = mapKeys m := by
  induction m with
  | nil => simp [mapKeys] at h
  | cons hd tl ih =>
    unfold setEntry
    by_cases hk : (hd.type.id == node.type.id)
    · rw [if_pos hk]
      have : node.type.id = hd.type.id := (beq_iff_eq.mp hk).symm
      simp [mapKeys, this]
    · rw [if_neg hk]
      have hne : node.type.id ≠ hd.type.id := by
        intro he
        exact hk (beq_iff_eq.mpr he.symm)
      have h' : node.type.id ∈ mapKeys tl := by
        rcases mem_mapKeys.mp h with ⟨n, hn, he⟩
        rcases List.mem_cons.mp hn with rfl | hn
        · exact absurd he.symm hne
        · exact mem_mapKeys.mpr ⟨n, hn, he⟩
      simp only [mapKeys, List.map_cons]
      rw [show (List.map (fun n => n.type.id) (setEntry tl node)) =
        mapKeys (setEntry tl node) from rfl, ih h']
      rfl

theorem mapKeys_buildTypeMap_nodup (types : List PostgresType) :
    (mapKeys (buildTypeMap types)).Nodup := by
  suffices h : ∀ acc : TypeMap, (mapKeys acc).Nodup →
      (mapKeys (types.foldl (fun m t => setEntry m (mkTypeNode t)) acc)).Nodup by
    exact h [] (by simp [mapKeys])
  induction types with
  | nil => intro acc hacc; exact hacc
  | cons t ts ih =>
    intro acc hacc
    simp only [List.foldl_cons]
    apply ih
    by_cases hmem : (mkTypeNode t).type.id ∈ mapKeys acc
    · rw [mapKeys_setEntry_mem hmem]
      exact hacc
    · rw [setEntry_not_mem hmem]
      have hkeys : mapKeys (acc ++ [mkTypeNode t]) =
          mapKeys acc ++ [(mkTypeNode t).type.id] := by
        simp [mapKeys]
      rw [hkeys]
      refine List.Nodup.append hacc (List.nodup_singleton _) ?_
      intro x hx hx'
      simp at hx'
      subst hx'
      exact hmem hx

theorem buildTypeMap_mem {types : List PostgresType} {n : TypeNode}
    (h : n ∈ buildTypeMap types) : ∃ t ∈ types, n = mkTypeNode t := by
  suffices hs : ∀ acc : TypeMap,
      n ∈ types.foldl (fun m t => setEntry m (mkTypeNode t)) acc →
      n ∈ acc ∨ ∃ t ∈ types, n = mkTypeNode t by
    rcases hs [] h with hmem | hgood
    · simp at hmem
    · exact hgood
  clear h
  induction types with
  | nil =>
    intro acc hacc
    exact Or.inl hacc
  | cons t ts ih =>
    intro acc hacc
    simp only [List.foldl_cons] at hacc
    rcases ih _ hacc with hmem | ⟨u, hu, he⟩
    · rcases setEntry_mem hmem with he | hmem'
      · exact Or.inr ⟨t, List.mem_cons_self _ _, he⟩
      · exact Or.inl hmem'
    · exact Or.inr ⟨u, List.mem_cons_of_mem _ hu, he⟩

theorem buildTypeMap_eq_of_nodup {types : List PostgresType}
    (h : (types.map (·.id)).Nodup) : buildTypeMap types = types.map mkTypeNode := by
  suffices hs : ∀ acc : TypeMap, (∀ t ∈ types, t.id ∉ mapKeys acc) →
      (types.map (·.id)).Nodup →
      types.foldl (fun m t => setEntry m (mkTypeNode t)) acc = acc ++ types.map mkTypeNode by
    have := hs [] (by simp [mapKeys]) h
    simpa [buildTypeMap] using this
  clear h
  induction types with
  | nil => intro acc _ _; simp
  | cons t ts ih =>
    intro acc hdisj hnd
    simp only [List.foldl_cons]
    have hset : setEntry acc (mkTypeNode t) = acc ++ [mkTypeNode t] :=
      setEntry_not_mem (hdisj t (List.mem_cons_self _ _))
    rw [hset]
    have hnd' : (ts.map (·.id)).Nodup ∧ t.id ∉ ts.map (·.id) := by
      rw [List.map_cons] at hnd
      have h1 := List.nodup_cons.mp hnd
      exact ⟨h1.2, h1.1⟩
    have hdisj' : ∀ u ∈ ts, u.id ∉ mapKeys (acc ++ [mkTypeNode t]) := by
      intro u hu hm
      unfold mapKeys at hm
      rw [List.map_append] at hm
      rcases List.mem_append.mp hm with hm | hm
      · exact hdisj u (List.mem_cons_of_mem _ hu) hm
      · simp [mkTypeNode] at hm
        exact hnd'.2 (hm ▸ List.mem_map_of_mem (·.id) hu)
    rw [ih _ hdisj' hnd'.1]
    simp

theorem findNode_of_mem {m : TypeMap} {n : TypeNode}
    (hnd : (mapKeys m).Nodup) (hm : n ∈ m) : findNode m n.type.id = some n := by
  induction m with
  | nil => cases hm
  | cons hd tl ih =>
    have hnd' : hd.type.id ∉ mapKeys tl ∧ (mapKeys tl).Nodup := by
      simpa [mapKeys] using hnd
    rcases List.mem_cons.mp hm with rfl | hm
    · exact findNode_cons_self rfl
    · have hne : hd.type.id ≠ n.type.id := by
        intro he
        exact hnd'.1 (he ▸ mem_mapKeys.mpr ⟨n, hm, rfl⟩)
      rw [findNode_cons_ne hne]
      exact ih hnd'.2 hm

theorem visitedAt_markInStack (m : TypeMap) (nodeId q : Nat) :
    visitedAt (markInStack m nodeId) q = visitedAt m q := by
  unfold visitedAt
  rw [findNode_markInStack]
  cases findNode m q with
  | none => rfl
  | some n =>
    by_cases hk : n.type.id = nodeId <;> simp [hk]

theorem inStackAt_markInStack_ne {m : TypeMap} {nodeId q : Nat} (h : q ≠ nodeId) :
    inStackAt (markInStack m nodeId) q = inStackAt m q := by
  unfold inStackAt
  rw [findNode_markInStack_ne h]

theorem inStackAt_markInStack_self {m : TypeMap} {nodeId : Nat} {n : TypeNode}
    (h : findNode m nodeId = some n) :
    inStackAt (markInStack m nodeId) nodeId = true := by
  unfold inStackAt
  rw [findNode_markInStack_self, h]
  rfl

theorem visitedAt_markDone_ne {m : TypeMap} {nodeId q : Nat} (h : q ≠ nodeId) :
    visitedAt (markDone m nodeId) q = visitedAt m q := by
  unfold visitedAt
  rw [findNode_markDone_ne h]

theorem inStackAt_markDone_ne {m : TypeMap} {nodeId q : Nat} (h : q ≠ nodeId) :
    inStackAt (markDone m nodeId) q = inStackAt m q := by
  unfold inStackAt
  rw [findNode_markDone_ne h]

theorem visitedAt_markDone_self {m : TypeMap} {nodeId : Nat} {n : TypeNode}
    (h : findNode m nodeId = some n) :
    visitedAt (markDone m nodeId) nodeId = true := by
  unfold visitedAt
  rw [findNode_markDone_self, h]
  rfl

theorem inStackAt_markDone_self {m : TypeMap} {nodeId : Nat} {n : TypeNode}
    (h : findNode m nodeId = some n) :
    inStackAt (markDone m nodeId) nodeId = false := by
  unfold inStackAt
  rw [findNode_markDone_self, h]
  rfl

theorem visitedAt_eq_of_findNode {m : TypeMap} {q : Nat} {n : TypeNode}
    (h : findNode m q = some n) : visitedAt m q = n.visited := by
  unfold visitedAt
  rw [h]
  rfl

theorem inStackAt_eq_of_findNode {m : TypeMap} {q : Nat} {n : TypeNode}
    (h : findNode m q = some n) : inStackAt m q = n.inStack := by
  unfold inStackAt
  rw [h]
  rfl

/-! ### The `dfs` step contract -/

/-- Facts holding across every successful `dfs`/`dfsDeps` call: the graph
shape is unchanged, the stack is restored, visited flags only grow (and
only on previously free nodes), the output list is extended, and the
number of free nodes does not grow. -/
structure StepOk (st st' : SortState) : Prop where
  graph : graphSig st'.typeMap = graphSig st.typeMap
  stack : ∀ q, inStackAt st'.typeMap q = inStackAt st.typeMap q
  visMono : ∀ q, visitedAt st.typeMap q = true → visitedAt st'.typeMap q = true
  visNew : ∀ q, visitedAt st'.typeMap q = true →
    visitedAt st.typeMap q = true ∨ inStackAt st.typeMap q = false
  sortedExt : ∃ l, st'.sorted = st.sorted ++ l
  free : (mapKeys st.typeMap).Nodup → freeCount st'.typeMap ≤ freeCount st.typeMap

theorem stepOk_rfl (st : SortState) : StepOk st st :=
  ⟨rfl, fun _ => rfl, fun _ h => h, fun _ h => Or.inl h, ⟨[], by simp⟩, fun _ => le_rfl⟩

theorem StepOk.trans {s1 s2 s3 : SortState} (a : StepOk s1 s2) (b : StepOk s2 s3) :
    StepOk s1 s3 := by
  refine ⟨b.graph.trans a.graph, fun q => (b.stack q).trans (a.stack q),
    fun q h => b.visMono q (a.visMono q h), ?_, ?_, ?_⟩
  · intro q h
    rcases b.visNew q h with h2 | h2
    · exact a.visNew q h2
    · exact Or.inr ((a.stack q).symm.trans h2)
  · obtain ⟨l1, h1⟩ := a.sortedExt
    obtain ⟨l2, h2⟩ := b.sortedExt
    exact ⟨l1 ++ l2, by rw [h2, h1, List.append_assoc]⟩
  · intro hnd
    have hnd2 : (mapKeys s2.typeMap).Nodup := by
      rw [mapKeys_congr a.graph]
      exact hnd
    exact (b.free hnd2).trans (a.free hnd)

/-! ### The state invariant of the DFS -/

/-- The invariant maintained by the DFS phase: keys are unique, the output
list has unique ids, its members are exactly the visited nodes' types, and
every already-emitted type follows all of its in-map dependencies. -/
structure GoodState (st : SortState) : Prop where
  keysNodup : (mapKeys st.typeMap).Nodup
  sortedNodup : (st.sorted.map (·.id)).Nodup
  sortedNodes : ∀ t ∈ st.sorted, ∃ n, findNode st.typeMap t.id = some n ∧
    n.type = t ∧ n.visited = true
  visitedSorted : ∀ n ∈ st.typeMap, n.visited = true → n.type ∈ st.sorted
  depsBefore : ∀ t ∈ st.sorted, ∀ n, findNode st.typeMap t.id = some n →
    ∀ d ∈ n.dependencies, ∀ nd, findNode st.typeMap d = some nd →
      List.Sublist [nd.type, t] st.sorted

theorem goodState_markInStack {st : SortState} (nodeId : Nat)
    (g : GoodState st) :
    GoodState { st with typeMap := markInStack st.typeMap nodeId } := by
  refine ⟨?_, g.sortedNodup, ?_, ?_, ?_⟩
  · have : mapKeys (markInStack st.typeMap nodeId) = mapKeys st.typeMap :=
      mapKeys_congr (graphSig_markInStack _ _)
    rw [this]
    exact g.keysNodup
  · intro t ht
    obtain ⟨n, hn, hnt, hnv⟩ := g.sortedNodes t ht
    have hfind : findNode (markInStack st.typeMap nodeId) t.id =
        some (if n.type.id == nodeId then { n with inStack := true } else n) := by
      rw [findNode_markInStack, hn]
      rfl
    by_cases hk : n.type.id = nodeId
    · refine ⟨{ n with inStack := true }, ?_, hnt, hnv⟩
      rw [hfind]
      simp [hk]
    · refine ⟨n, ?_, hnt, hnv⟩
      rw [hfind]
      simp [hk]
  · intro n hn hv
    rcases List.mem_map.mp hn with ⟨n0, hn0, heq⟩
    have hv0 : n0.visited = true := by
      by_cases hk : n0.type.id = nodeId
      · rw [← heq] at hv
        simpa [hk] using hv
      · rw [← heq] at hv
        simpa [hk] using hv
    have ht0 : n.type = n0.type := by
      rw [← heq]
      by_cases hk : n0.type.id = nodeId <;> simp [hk]
    rw [ht0]
    exact g.visitedSorted n0 hn0 hv0
  · intro t ht n hn d hd nd hnd
    obtain ⟨n0, hn0, ht0, hd0⟩ := findNode_sig_congr (graphSig_markInStack st.typeMap nodeId) hn
    obtain ⟨nd0, hnd0, htd0, _⟩ := findNode_sig_congr (graphSig_markInStack st.typeMap nodeId) hnd
    rw [← htd0]
    exact g.depsBefore t ht n0 hn0 d (hd0 ▸ hd) nd0 hnd0

theorem visitedAt_some_true {m : TypeMap} {q : Nat} (h : visitedAt m q = true) :
    ∃ n, findNode m q = some n ∧ n.visited = true := by
  unfold visitedAt at h
  cases hf : findNode m q with
  | none => rw [hf] at h; simp at h
  | some n =>
    rw [hf] at h
    exact ⟨n, rfl, by simpa using h⟩

/-- Emitting a node after all of its in-map dependencies are visited
preserves the DFS invariant. -/
theorem goodState_markDone_push {st2 : SortState} {nodeId : Nat} {n2 : TypeNode}
    (g2 : GoodState st2)
    (hn2 : findNode st2.typeMap nodeId = some n2)
    (hvis2 : n2.visited = false)
    (hdeps : ∀ d ∈ n2.dependencies,
      findNode st2.typeMap d = none ∨ visitedAt st2.typeMap d = true) :
    GoodState { typeMap := markDone st2.typeMap nodeId
                sorted := st2.sorted ++ [n2.type] } := by
  have hkey : n2.type.id = nodeId := findNode_some_key hn2
  have hnotin : n2.type.id ∉ st2.sorted.map (·.id) := by
    intro hmem
    rcases List.mem_map.mp hmem with ⟨t, ht, hid⟩
    obtain ⟨n0, hn0, _, hn0v⟩ := g2.sortedNodes t ht
    rw [hid, hkey, hn2] at hn0
    rw [Option.some.inj hn0] at hvis2
    rw [hvis2] at hn0v
    cases hn0v
  refine ⟨?_, ?_, ?_, ?_, ?_⟩
  · have hkeys : mapKeys (markDone st2.typeMap nodeId) = mapKeys st2.typeMap :=
      mapKeys_congr (graphSig_markDone _ _)
    simpa [hkeys] using g2.keysNodup
  · simp only [List.map_append, List.map_cons, List.map_nil]
    refine List.Nodup.append g2.sortedNodup (List.nodup_singleton _) ?_
    intro x hx hx'
    simp at hx'
    subst hx'
    exact hnotin hx
  · intro t ht
    rcases List.mem_append.mp ht with ht | ht
    · obtain ⟨n0, hn0, hn0t, hn0v⟩ := g2.sortedNodes t ht
      have hne : t.id ≠ nodeId := by
        intro he
        exact hnotin (hkey.symm ▸ he ▸ List.mem_map_of_mem (·.id) ht)
      refine ⟨n0, ?_, hn0t, hn0v⟩
      rw [findNode_markDone_ne hne]
      exact hn0
    · have ht' : t = n2.type := by simpa using ht
      subst ht'
      refine ⟨{ n2 with visited := true, inStack := false }, ?_, rfl, rfl⟩
      rw [hkey, findNode_markDone_self, hn2]
      rfl
  · intro n' hn' hv'
    unfold markDone at hn'
    rcases List.mem_map.mp hn' with ⟨n0, hn0, heq⟩
    by_cases hk : n0.type.id = nodeId
    · have hfound : findNode st2.typeMap nodeId = some n0 := by
        rw [← hk]
        exact findNode_of_mem g2.keysNodup hn0
      have hn02 : n0 = n2 := by
        rw [hfound] at hn2
        exact Option.some.inj hn2
      have ht' : n'.type = n2.type := by
        rw [← heq, ← hn02]
        simp [hk]
      rw [ht']
      simp
    · have hsame : n' = n0 := by
        rw [← heq]
        simp [hk]
      rw [hsame] at hv' ⊢
      simp only [List.mem_append]
      exact Or.inl (g2.visitedSorted n0 hn0 hv')
  · intro t ht n' hn' d hd nd' hnd'
    rcases List.mem_append.mp ht with htm | htm
    · -- an old entry keeps its ordering facts
      have hne : t.id ≠ nodeId := by
        intro he
        exact hnotin (hkey.symm ▸ he ▸ List.mem_map_of_mem (·.id) htm)
      rw [findNode_markDone_ne hne] at hn'
      by_cases hdk : d = nodeId
      · subst hdk
        rw [findNode_markDone_self, hn2] at hnd'
        have hnd'e : nd' = { n2 with visited := true, inStack := false } :=
          (Option.some.inj hnd').symm
        have hold : List.Sublist [n2.type, t] st2.sorted :=
          g2.depsBefore t htm n' hn' d hd n2 hn2
        have : nd'.type = n2.type := by rw [hnd'e]
        rw [this]
        exact hold.trans (List.sublist_append_left _ _)
      · rw [findNode_markDone_ne hdk] at hnd'
        exact (g2.depsBefore t htm n' hn' d hd nd' hnd').trans
          (List.sublist_append_left _ _)
    · -- the new entry: its dependencies are all visited, hence emitted
      have ht' : t = n2.type := by simpa using htm
      subst ht'
      rw [hkey, findNode_markDone_self, hn2] at hn'
      have hn'e : n' = { n2 with visited := true, inStack := false } :=
        (Option.some.inj hn').symm
      have hdd : d ∈ n2.dependencies := by
        rw [hn'e] at hd
        exact hd
      rcases hdeps d hdd with hnone | hvisd
      · exfalso
        have : findNode (markDone st2.typeMap nodeId) d = none :=
          (findNode_none_congr (graphSig_markDone st2.typeMap nodeId).symm).mp hnone
        rw [this] at hnd'
        cases hnd'
      · obtain ⟨nd2, hnd2, hndv⟩ := visitedAt_some_true hvisd
        have hdne : d ≠ nodeId := by
          intro he
          rw [he, hn2] at hnd2
          have hsame : n2 = nd2 := Option.some.inj hnd2
          rw [← hsame] at hndv
          rw [hvis2] at hndv
          cases hndv
        rw [findNode_markDone_ne hdne, hnd2] at hnd'
        have hnd'e : nd' = nd2 := (Option.some.inj hnd').symm
        subst hnd'e
        have hmem2 : nd'.type ∈ st2.sorted :=
          g2.visitedSorted nd' (findNode_some_mem hnd2) hndv
        have h1 : List.Sublist [nd'.type] st2.sorted :=
          List.singleton_sublist.mpr hmem2
        have h2 : List.Sublist [n2.type] [n2.type] := List.Sublist.refl _
        exact h1.append h2

/-- Success postconditions of `dfs` and `dfsDeps`, by induction on fuel. -/
theorem dfs_dfsDeps_ok (fuel : Nat) :
    (∀ nodeId st st', dfs fuel nodeId st = .ok st' →
      StepOk st st' ∧ (GoodState st → GoodState st' ∧
        (findNode st.typeMap nodeId = none ∨ visitedAt st'.typeMap nodeId = true))) ∧
    (∀ deps st st', dfsDeps fuel deps st = .ok st' →
      StepOk st st' ∧ (GoodState st → GoodState st' ∧
        (∀ d ∈ deps, findNode st.typeMap d = none ∨
          visitedAt st'.typeMap d = true))) := by
  induction fuel with
  | zero =>
    constructor
    · intro nodeId st st' h
      simp [dfs] at h
    · intro deps st st' h
      cases deps with
      | nil =>
        simp only [dfsDeps, dfsDepsWith] at h
        cases h
        exact ⟨stepOk_rfl st, fun g => ⟨g, by simp⟩⟩
      | cons d ds =>
        simp [dfsDeps, dfsDepsWith, dfs] at h
  | succ fuel ih =>
    have hP : ∀ nodeId st st', dfs (fuel + 1) nodeId st = .ok st' →
        StepOk st st' ∧ (GoodState st → GoodState st' ∧
          (findNode st.typeMap nodeId = none ∨
            visitedAt st'.typeMap nodeId = true)) := by
      intro nodeId st st' h
      unfold dfs at h
      split at h
      next hfind =>
        cases h
        exact ⟨stepOk_rfl st, fun g => ⟨g, Or.inl hfind⟩⟩
      next node hfind =>
        split at h
        next hstk => cases h
        next hstk =>
          split at h
          next hvis =>
            cases h
            refine ⟨stepOk_rfl st, fun g => ⟨g, Or.inr ?_⟩⟩
            rw [visitedAt_eq_of_findNode hfind]
            exact hvis
          next hvis =>
            have hstkF : node.inStack = false := by simpa using hstk
            have hvisF : node.visited = false := by simpa using hvis
            split at h
            next e hrec => cases h
            next st2 hrec =>
              have hst' : st' = { typeMap := markDone st2.typeMap nodeId
                                  sorted := st2.sorted ++ [node.type] } := by
                cases h
                rfl
              subst hst'
              obtain ⟨hQs, hQg⟩ := ih.2 node.dependencies _ st2 hrec
              have hg1 : graphSig (markInStack st.typeMap nodeId) =
                  graphSig st.typeMap := graphSig_markInStack _ _
              have hg2 : graphSig st2.typeMap = graphSig st.typeMap :=
                hQs.graph.trans hg1
              obtain ⟨n2, hn2, hn2t, hn2d⟩ := findNode_sig_congr hg2.symm hfind
              have hstk2 : inStackAt st2.typeMap nodeId = true := by
                rw [hQs.stack nodeId]
                exact inStackAt_markInStack_self hfind
              have hn2stk : n2.inStack = true := by
                rw [inStackAt_eq_of_findNode hn2] at hstk2
                exact hstk2
              have hvis2 : visitedAt st2.typeMap nodeId = false := by
                cases hcand : visitedAt st2.typeMap nodeId with
                | false => rfl
                | true =>
                  rcases hQs.visNew nodeId hcand with h1 | h1
                  · rw [show ({ st with
                        typeMap := markInStack st.typeMap nodeId } : SortState).typeMap =
                        markInStack st.typeMap nodeId from rfl,
                      visitedAt_markInStack, visitedAt_eq_of_findNode hfind] at h1
                    rw [h1] at hvisF
                    cases hvisF
                  · rw [show ({ st with
                        typeMap := markInStack st.typeMap nodeId } : SortState).typeMap =
                        markInStack st.typeMap nodeId from rfl,
                      inStackAt_markInStack_self hfind] at h1
                    cases h1
              have hn2vis : n2.visited = false := by
                rw [visitedAt_eq_of_findNode hn2] at hvis2
                exact hvis2
              refine ⟨⟨?_, ?_, ?_, ?_, ?_, ?_⟩, ?_⟩
              · exact (graphSig_markDone _ _).trans hg2
              · intro q
                by_cases hq : q = nodeId
                · subst hq
                  rw [inStackAt_markDone_self hn2, inStackAt_eq_of_findNode hfind,
                    hstkF]
                · rw [inStackAt_markDone_ne hq, hQs.stack q]
                  exact inStackAt_markInStack_ne hq
              · intro q hq
                by_cases hqn : q = nodeId
                · subst hqn
                  exact visitedAt_markDone_self hn2
                · rw [visitedAt_markDone_ne hqn]
                  apply hQs.visMono
                  rw [show ({ st with
                      typeMap := markInStack st.typeMap nodeId } : SortState).typeMap =
                      markInStack st.typeMap nodeId from rfl, visitedAt_markInStack]
                  exact hq
              · intro q hq
                by_cases hqn : q = nodeId
                · subst hqn
                  refine Or.inr ?_
                  rw [inStackAt_eq_of_findNode hfind]
                  exact hstkF
                · rw [visitedAt_markDone_ne hqn] at hq
                  rcases hQs.visNew q hq with h1 | h1
                  · rw [show ({ st with
                        typeMap := markInStack st.typeMap nodeId } : SortState).typeMap =
                        markInStack st.typeMap nodeId from rfl,
                      visitedAt_markInStack] at h1
                    exact Or.inl h1
                  · rw [show ({ st with
                        typeMap := markInStack st.typeMap nodeId } : SortState).typeMap =
                        markInStack st.typeMap nodeId from rfl,
                      inStackAt_markInStack_ne hqn] at h1
                    exact Or.inr h1
              · obtain ⟨l, hl⟩ := hQs.sortedExt
                refine ⟨l ++ [node.type], ?_⟩
                simp only
                rw [hl]
                simp
              · intro hnd
                have hnd1 : (mapKeys (markInStack st.typeMap nodeId)).Nodup := by
                  rw [mapKeys_congr hg1]
                  exact hnd
                have h1 : freeCount (markInStack st.typeMap nodeId) + 1 =
                    freeCount st.typeMap :=
                  freeCount_markInStack hnd hfind hvisF hstkF
                have h2 : freeCount st2.typeMap ≤
                    freeCount (markInStack st.typeMap nodeId) := hQs.free hnd1
                have hnd2 : (mapKeys st2.typeMap).Nodup := by
                  rw [mapKeys_congr hg2]
                  exact hnd
                have h3 : freeCount (markDone st2.typeMap nodeId) =
                    freeCount st2.typeMap := freeCount_markDone hnd2 hn2 hn2stk
                simp only
                omega
              · intro g
                have g1 : GoodState { st with
                    typeMap := markInStack st.typeMap nodeId } :=
                  goodState_markInStack nodeId g
                obtain ⟨g2, htargets⟩ := hQg g1
                constructor
                · have hdeps2 : ∀ d ∈ n2.dependencies,
                      findNode st2.typeMap d = none ∨
                        visitedAt st2.typeMap d = true := by
                    intro d hd
                    rw [hn2d] at hd
                    rcases htargets d hd with h1 | h1
                    · exact Or.inl ((findNode_none_congr hQs.graph).mpr h1)
                    · exact Or.inr h1
                  have hpush := goodState_markDone_push g2 hn2 hn2vis hdeps2
                  rw [hn2t] at hpush
                  exact hpush
                · exact Or.inr (visitedAt_markDone_self hn2)
    have hQ : ∀ deps st st', dfsDeps (fuel + 1) deps st = .ok st' →
        StepOk st st' ∧ (GoodState st → GoodState st' ∧
          (∀ d ∈ deps, findNode st.typeMap d = none ∨
            visitedAt st'.typeMap d = true)) := by
      intro deps
      induction deps with
      | nil =>
        intro st st' h
        simp only [dfsDeps] at h
        cases h
        exact ⟨stepOk_rfl st, fun g => ⟨g, by simp⟩⟩
      | cons d ds ihds =>
        intro st st' h
        unfold dfsDeps dfsDepsWith at h
        split at h
        next e hd1 => cases h
        next stm hd1 =>
          obtain ⟨s1, s1g⟩ := hP d st stm hd1
          obtain ⟨s2, s2g⟩ := ihds stm st' h
          refine ⟨s1.trans s2, fun g => ?_⟩
          obtain ⟨g1, t1⟩ := s1g g
          obtain ⟨g2, t2⟩ := s2g g1
          refine ⟨g2, ?_⟩
          intro d' hd'
          rcases List.mem_cons.mp hd' with rfl | hd'
          · rcases t1 with h1 | h1
            · exact Or.inl h1
            · exact Or.inr (s2.visMono _ h1)
          · rcases t2 d' hd' with h1 | h1
            · exact Or.inl ((findNode_none_congr s1.graph).mp h1)
            · exact Or.inr h1
    exact ⟨hP, hQ⟩

/-- Success postconditions of the key loop `dfsAll`. -/
theorem dfsAll_ok (fuel : Nat) : ∀ keys st st', dfsAll fuel keys st = .ok st' →
    StepOk st st' ∧ (GoodState st → GoodState st' ∧
      (∀ k ∈ keys, findNode st.typeMap k = none ∨
        visitedAt st'.typeMap k = true)) := by
  intro keys
  induction keys with
  | nil =>
    intro st st' h
    simp only [dfsAll] at h
    cases h
    exact ⟨stepOk_rfl st, fun g => ⟨g, by simp⟩⟩
  | cons k ks ihk =>
    intro st st' h
    unfold dfsAll at h
    split at h
    next hfind =>
      obtain ⟨s2, s2g⟩ := ihk st st' h
      refine ⟨s2, fun g => ?_⟩
      obtain ⟨g2, t2⟩ := s2g g
      refine ⟨g2, ?_⟩
      intro k' hk'
      rcases List.mem_cons.mp hk' with rfl | hk'
      · exact Or.inl hfind
      · exact t2 k' hk'
    next n hfind =>
      split at h
      next hvis =>
        obtain ⟨s2, s2g⟩ := ihk st st' h
        refine ⟨s2, fun g => ?_⟩
        obtain ⟨g2, t2⟩ := s2g g
        refine ⟨g2, ?_⟩
        intro k' hk'
        rcases List.mem_cons.mp hk' with rfl | hk'
        · refine Or.inr (s2.visMono _ ?_)
          rw [visitedAt_eq_of_findNode hfind]
          exact hvis
        · exact t2 k' hk'
      next hvis =>
        split at h
        next e hd => cases h
        next stm hd =>
          obtain ⟨s1, s1g⟩ := (dfs_dfsDeps_ok fuel).1 k st stm hd
          obtain ⟨s2, s2g⟩ := ihk stm st' h
          refine ⟨s1.trans s2, fun g => ?_⟩
          obtain ⟨g1, t1⟩ := s1g g
          obtain ⟨g2, t2⟩ := s2g g1
          refine ⟨g2, ?_⟩
          intro k' hk'
          rcases List.mem_cons.mp hk' with rfl | hk'
          · rcases t1 with h1 | h1
            · exact Or.inl h1
            · exact Or.inr (s2.visMono _ h1)
          · rcases t2 k' hk' with h1 | h1
            · exact Or.inl ((findNode_none_congr s1.graph).mp h1)
            · exact Or.inr h1

/-- Fuel sufficiency: with fuel exceeding the number of free nodes, `dfs`
and `dfsDeps` never report fuel exhaustion (mirroring the fuel-free
JavaScript recursion). -/
theorem dfs_dfsDeps_no_fuelOut (fuel : Nat) :
    (∀ nodeId st, (mapKeys st.typeMap).Nodup →
      freeCount st.typeMap + 1 ≤ fuel → dfs fuel nodeId st ≠ .error .fuelOut) ∧
    (∀ deps st, (mapKeys st.typeMap).Nodup →
      freeCount st.typeMap + 1 ≤ fuel →
      dfsDeps fuel deps st ≠ .error .fuelOut) := by
  induction fuel with
  | zero =>
    constructor
    · intro _ st _ hb
      exact absurd hb (by omega)
    · intro _ st _ hb
      exact absurd hb (by omega)
  | succ fuel ih =>
    have hP : ∀ nodeId st, (mapKeys st.typeMap).Nodup →
        freeCount st.typeMap + 1 ≤ fuel + 1 →
        dfs (fuel + 1) nodeId st ≠ .error .fuelOut := by
      intro nodeId st hnd hb h
      unfold dfs at h
      split at h
      next hfind => cases h
      next node hfind =>
        split at h
        next hstk => simp at h
        next hstk =>
          split at h
          next hvis => cases h
          next hvis =>
            have hstkF : node.inStack = false := by simpa using hstk
            have hvisF : node.visited = false := by simpa using hvis
            split at h
            next e hrec =>
              have he : e = .fuelOut := by
                cases h
                rfl
              subst he
              have hnd1 : (mapKeys (markInStack st.typeMap nodeId)).Nodup := by
                rw [mapKeys_congr (graphSig_markInStack _ _)]
                exact hnd
              have hfc : freeCount (markInStack st.typeMap nodeId) + 1 =
                  freeCount st.typeMap := freeCount_markInStack hnd hfind hvisF hstkF
              have hb1 : freeCount (markInStack st.typeMap nodeId) + 1 ≤ fuel := by
                omega
              exact ih.2 node.dependencies _ hnd1 hb1 hrec
            next st2 hrec => cases h
    have hQ : ∀ deps st, (mapKeys st.typeMap).Nodup →
        freeCount st.typeMap + 1 ≤ fuel + 1 →
        dfsDeps (fuel + 1) deps st ≠ .error .fuelOut := by
      intro deps
      induction deps with
      | nil =>
        intro st _ _ h
        simp [dfsDeps, dfsDepsWith] at h
      | cons d ds ihds =>
        intro st hnd hb h
        unfold dfsDeps dfsDepsWith at h
        split at h
        next e hd1 =>
          have he : e = .fuelOut := by
            cases h
            rfl
          subst he
          exact hP d st hnd hb hd1
        next stm hd1 =>
          obtain ⟨s1, _⟩ := (dfs_dfsDeps_ok (fuel + 1)).1 d st stm hd1
          have hndm : (mapKeys stm.typeMap).Nodup := by
            rw [mapKeys_congr s1.graph]
            exact hnd
          have hbm : freeCount stm.typeMap + 1 ≤ fuel + 1 := by
            have := s1.free hnd
            omega
          exact ihds stm hndm hbm h
    exact ⟨hP, hQ⟩

/-- Fuel sufficiency for the key loop. -/
theorem dfsAll_no_fuelOut (fuel : Nat) : ∀ keys st, (mapKeys st.typeMap).Nodup →
    freeCount st.typeMap + 1 ≤ fuel → dfsAll fuel keys st ≠ .error .fuelOut := by
  intro keys
  induction keys with
  | nil =>
    intro st _ _ h
    simp [dfsAll] at h
  | cons k ks ihk =>
    intro st hnd hb h
    unfold dfsAll at h
    split at h
    next hfind => exact ihk st hnd hb h
    next n hfind =>
      split at h
      next hvis => exact ihk st hnd hb h
      next hvis =>
        split at h
        next e hd =>
          have he : e = .fuelOut := by
            cases h
            rfl
          subst he
          exact (dfs_dfsDeps_no_fuelOut fuel).1 k st hnd hb hd
        next stm hd =>
          obtain ⟨s1, _⟩ := (dfs_dfsDeps_ok fuel).1 k st stm hd
          have hndm : (mapKeys stm.typeMap).Nodup := by
            rw [mapKeys_congr s1.graph]
            exact hnd
          have hbm : freeCount stm.typeMap + 1 ≤ fuel := by
            have := s1.free hnd
            omega
          exact ihk stm hndm hbm h

/-- `sortTypesByDependency` never reports the artificial fuel exhaustion:
the chosen fuel `typeMap.length + 1` bounds the recursion depth. -/
theorem sortTypesByDependency_no_fuelOut (types : List PostgresType) :
    sortTypesByDependency types ≠ .error .fuelOut := by
  intro h
  unfold sortTypesByDependency at h
  dsimp only at h
  split at h
  next e heq =>
    have he : e = .fuelOut := by
      cases h
      rfl
    subst he
    have hnd := mapKeys_buildTypeMap_nodup types
    have hb : freeCount (buildTypeMap types) + 1 ≤ (buildTypeMap types).length + 1 := by
      have := freeCount_le_length (buildTypeMap types)
      omega
    exact dfsAll_no_fuelOut ((buildTypeMap types).length + 1) _ _ hnd hb heq
  next st' heq => cases h

theorem goodState_init (types : List PostgresType) :
    GoodState { typeMap := buildTypeMap types, sorted := [] } := by
  refine ⟨mapKeys_buildTypeMap_nodup types, by simp, by simp, ?_, by simp⟩
  intro n hn hv
  obtain ⟨t, _, rfl⟩ := buildTypeMap_mem hn
  simp [mkTypeNode] at hv

/-- Everything `sortTypesByDependency` guarantees about a successful run,
phrased over the pre-partition DFS output list. -/
theorem sortTypesByDependency_sorted_facts {types out : List PostgresType}
    (h : sortTypesByDependency types = .ok out) :
    ∃ sortedL : List PostgresType,
      out = sortArraysLast sortedL ∧
      (sortedL.map (·.id)).Nodup ∧
      (∀ t, t ∈ sortedL ↔ ∃ n ∈ buildTypeMap types, n.type = t) ∧
      (∀ t ∈ sortedL, ∀ n, findNode (buildTypeMap types) t.id = some n →
        ∀ d ∈ n.dependencies, ∀ nd, findNode (buildTypeMap types) d = some nd →
          List.Sublist [nd.type, t] sortedL) := by
  unfold sortTypesByDependency at h
  dsimp only at h
  split at h
  next e heq => cases h
  next st' heq =>
    have hout : out = sortArraysLast st'.sorted := (Except.ok.inj h).symm
    obtain ⟨sAll, sg⟩ := dfsAll_ok ((buildTypeMap types).length + 1) _ _ _ heq
    obtain ⟨g', tAll⟩ := sg (goodState_init types)
    have hgr : graphSig st'.typeMap = graphSig (buildTypeMap types) := sAll.graph
    have hnd0 := mapKeys_buildTypeMap_nodup types
    have hallvis : ∀ n ∈ buildTypeMap types, visitedAt st'.typeMap n.type.id = true := by
      intro n hn
      have hk : n.type.id ∈ mapKeys (buildTypeMap types) :=
        mem_mapKeys.mpr ⟨n, hn, rfl⟩
      rcases tAll n.type.id (by simpa [mapKeys] using hk) with h1 | h1
      · rw [findNode_of_mem hnd0 hn] at h1
        cases h1
      · exact h1
    refine ⟨st'.sorted, hout, g'.sortedNodup, ?_, ?_⟩
    · intro t
      constructor
      · intro ht
        obtain ⟨n', hn', hn't, _⟩ := g'.sortedNodes t ht
        obtain ⟨n0, hn0, hn0t, _⟩ := findNode_sig_congr hgr hn'
        exact ⟨n0, findNode_some_mem hn0, hn0t.trans hn't⟩
      · rintro ⟨n, hn, rfl⟩
        have hv := hallvis n hn
        obtain ⟨n', hn', hn'v⟩ := visitedAt_some_true hv
        have hmem := g'.visitedSorted n' (findNode_some_mem hn') hn'v
        obtain ⟨n0, hn0, hn0t, _⟩ := findNode_sig_congr hgr hn'
        rw [findNode_of_mem hnd0 hn] at hn0
        rw [← Option.some.inj hn0] at hn0t
        rw [hn0t]
        exact hmem
    · intro t ht n hn d hd nd hnd
      obtain ⟨n', hn', hn't, hn'd⟩ := findNode_sig_congr hgr.symm hn
      obtain ⟨nd', hnd', hnd't, _⟩ := findNode_sig_congr hgr.symm hnd
      have := g'.depsBefore t ht n' hn' d (by rw [hn'd]; exact hd) nd' hnd'
      rw [hnd't] at this
      exact this

theorem sortArraysLast_perm (l : List PostgresType) :
    (sortArraysLast l).Perm l := by
  unfold sortArraysLast
  have hfun : (fun t : PostgresType => startsWithUnderscore t.name) =
      (fun t : PostgresType => !(!startsWithUnderscore t.name)) := by
    funext t
    simp
  rw [hfun]
  exact List.filter_append_perm _ l

theorem sublist_sortArraysLast_nonarray {l : List PostgresType}
    {a b : PostgresType} (ha : startsWithUnderscore a.name = false)
    (hb : startsWithUnderscore b.name = false)
    (hs : List.Sublist [a, b] l) : List.Sublist [a, b] (sortArraysLast l) := by
  unfold sortArraysLast
  have hf := hs.filter (fun t => !startsWithUnderscore t.name)
  have : List.filter (fun t => !startsWithUnderscore t.name) [a, b] = [a, b] := by
    simp [List.filter, ha, hb]
  rw [this] at hf
  exact hf.trans (List.sublist_append_left _ _)

theorem sublist_sortArraysLast_cross {l : List PostgresType}
    {a b : PostgresType} (ha : startsWithUnderscore a.name = false)
    (hb : startsWithUnderscore b.name = true)
    (hma : a ∈ l) (hmb : b ∈ l) : List.Sublist [a, b] (sortArraysLast l) := by
  unfold sortArraysLast
  have h1 : List.Sublist [a] (l.filter (fun t => !startsWithUnderscore t.name)) :=
    List.singleton_sublist.mpr (List.mem_filter.mpr ⟨hma, by simp [ha]⟩)
  have h2 : List.Sublist [b] (l.filter (fun t => startsWithUnderscore t.name)) :=
    List.singleton_sublist.mpr (List.mem_filter.mpr ⟨hmb, by simp [hb]⟩)
  exact h1.append h2

theorem sublist_pair_nodup_eq {α : Type _} {l : List α} (hnd : l.Nodup)
    {a b : α} (hab : List.Sublist [a, b] l) (hba : List.Sublist [b, a] l) :
    a = b := by
  induction l with
  | nil => cases hab
  | cons x xs ih =>
    have hnd' := List.nodup_cons.mp hnd
    cases hab with
    | cons _ hab' =>
      cases hba with
      | cons _ hba' => exact ih hnd'.2 hab' hba'
      | cons₂ _ hba' =>
        -- x = b and [a, b] <+ xs, so b ∈ xs contradicting nodup
        have hbmem : b ∈ xs := by
          have : b ∈ [a, b] := by simp
          exact hab'.mem this
        exact absurd hbmem hnd'.1
    | cons₂ _ hab' =>
      -- x = a and [b] <+ xs
      cases hba with
      | cons _ hba' =>
        have hamem : a ∈ xs := by
          have : a ∈ [b, a] := by simp
          exact hba'.mem this
        exact absurd hamem hnd'.1
      | cons₂ _ hba' =>
        -- x = a and x = b simultaneously is impossible here: hab' : [b] <+ xs,
        -- hba' : [a] <+ xs; but the heads forced x = a and x = b
        rfl

instance {ε α : Type} [DecidableEq ε] [DecidableEq α] : DecidableEq (Except ε α) :=
  fun x y =>
  match x, y with
  | .ok u, .ok v =>
    if h : u = v then isTrue (by rw [h])
    else isFalse (by intro hc; cases hc; exact h rfl)
  | .error u, .error v =>
    if h : u = v then isTrue (by rw [h])
    else isFalse (by intro hc; cases hc; exact h rfl)
  | .ok _, .error _ => isFalse (by intro hc; cases hc)
  | .error _, .ok _ => isFalse (by intro hc; cases hc)

theorem findNode_buildTypeMap {types : List PostgresType}
    (h : (types.map (·.id)).Nodup) {t : PostgresType} (ht : t ∈ types) :
    findNode (buildTypeMap types) t.id = some (mkTypeNode t) := by
  have hmem : mkTypeNode t ∈ buildTypeMap types := by
    rw [buildTypeMap_eq_of_nodup h]
    exact List.mem_map_of_mem _ ht
  exact findNode_of_mem (mapKeys_buildTypeMap_nodup types) hmem

/-- C1 (amended): for every input list with pairwise-distinct ids, whenever
`sortTypesByDependency` returns, its output is a permutation of the input;
every type `D` referenced by an attribute of a type `T` (with `D ≠ T` by
id, `D` present in the input, and `D` not array-marked) appears strictly
before `T`; and every array-marked type appears strictly after any present
non-array-marked type bearing its base name.  (The claim's unrestricted
ordering guarantee is refuted by the counterexample below: the final
arrays-last pass moves an array-marked dependency after its referrer.) -/
theorem sortTypesByDependency_topological (types out : List PostgresType)
    (hnd : (types.map (·.id)).Nodup)
    (h : sortTypesByDependency types = .ok out) :
    out.Perm types ∧
    (∀ T ∈ types, ∀ a ∈ T.attributes, a.type_id ≠ T.id →
      ∀ D ∈ types, D.id = a.type_id → startsWithUnderscore D.name = false →
        List.Sublist [D, T] out) ∧
    (∀ A ∈ types, startsWithUnderscore A.name = true →
      ∀ B ∈ types, B.name = dropFirstChar A.name →
        startsWithUnderscore B.name = false → List.Sublist [B, A] out) := by
  obtain ⟨sortedL, hout, hndL, hmemL, hdeps⟩ := sortTypesByDependency_sorted_facts h
  have hmem : ∀ t, t ∈ sortedL ↔ t ∈ types := by
    intro t
    rw [hmemL t]
    constructor
    · rintro ⟨n, hn, rfl⟩
      obtain ⟨u, hu, rfl⟩ := buildTypeMap_mem hn
      exact hu
    · intro ht
      refine ⟨mkTypeNode t, ?_, rfl⟩
      rw [buildTypeMap_eq_of_nodup hnd]
      exact List.mem_map_of_mem _ ht
  have hndL' : sortedL.Nodup := hndL.of_map _
  have hndT : types.Nodup := hnd.of_map _
  have hperm : sortedL.Perm types := (List.perm_ext_iff_of_nodup hndL' hndT).mpr hmem
  refine ⟨?_, ?_, ?_⟩
  · rw [hout]
    exact (sortArraysLast_perm sortedL).trans hperm
  · intro T hT a ha hane D hD hDid hDarr
    have hfT : findNode (buildTypeMap types) T.id = some (mkTypeNode T) :=
      findNode_buildTypeMap hnd hT
    have hdmem : a.type_id ∈ (mkTypeNode T).dependencies := by
      unfold mkTypeNode
      simp only [List.mem_filter, List.mem_map]
      exact ⟨⟨a, ha, rfl⟩, by simpa using hane⟩
    have hfD : findNode (buildTypeMap types) a.type_id = some (mkTypeNode D) := by
      rw [← hDid]
      exact findNode_buildTypeMap hnd hD
    have hTE : T ∈ sortedL := (hmem T).mpr hT
    have hsub : List.Sublist [(mkTypeNode D).type, T] sortedL :=
      hdeps T hTE (mkTypeNode T) hfT a.type_id hdmem (mkTypeNode D) hfD
    have hsub' : List.Sublist [D, T] sortedL := hsub
    rw [hout]
    by_cases hTarr : startsWithUnderscore T.name = true
    · exact sublist_sortArraysLast_cross hDarr hTarr
        ((hmem D).mpr hD) hTE
    · exact sublist_sortArraysLast_nonarray hDarr (by simpa using hTarr) hsub'
  · intro A hA hAarr B hB _ hBarr
    rw [hout]
    exact sublist_sortArraysLast_cross hBarr hAarr ((hmem B).mpr hB)
      ((hmem A).mpr hA)

/-- C1 counterexample: with a composite type (id 1) whose attribute
references an array-marked type (id 2), `sortTypesByDependency` succeeds
but emits the referenced type strictly after its referrer — the claimed
unconditional dependency order does not hold, because the final
arrays-last pass moves every array-marked type to the end. -/
theorem sortTypesByDependency_arrayDep_counterexample :
    sortTypesByDependency
      [{ id := 1, name := "t", attributes := [{ name := "e", type_id := 2 }],
         enums := [], comment := none },
       { id := 2, name := "_e", attributes := [], enums := [], comment := none }] =
      .ok [{ id := 1, name := "t", attributes := [{ name := "e", type_id := 2 }],
             enums := [], comment := none },
           { id := 2, name := "_e", attributes := [], enums := [], comment := none }] ∧
    ({ name := "e", type_id := 2 } : PostgresTypeAttribute) ∈
      ({ id := 1, name := "t", attributes := [{ name := "e", type_id := 2 }],
         enums := [], comment := none } : PostgresType).attributes ∧
    (2 : Nat) ≠ 1 ∧
    ¬ List.Sublist
      [({ id := 2, name := "_e", attributes := [], enums := [], comment := none } : PostgresType),
       { id := 1, name := "t", attributes := [{ name := "e", type_id := 2 }],
         enums := [], comment := none }]
      [{ id := 1, name := "t", attributes := [{ name := "e", type_id := 2 }],
         enums := [], comment := none },
       { id := 2, name := "_e", attributes := [], enums := [], comment := none }] := by
  refine ⟨by decide, by decide, by decide, by decide⟩

/-- Concrete composite type used by the C1 witness. -/
def c1TaskType : PostgresType :=
  { id := 1, name := "task", attributes := [{ name := "s", type_id := 2 }],
    enums := [], comment := none }

/-- Concrete leaf type used by the C1 witness. -/
def c1StatusType : PostgresType :=
  { id := 2, name := "status", attributes := [], enums := ["a"], comment := none }

/-- C1 witness: the amended theorem applied to a concrete two-type input
(an enum-like leaf and a composite referencing it). -/
theorem sortTypesByDependency_topological_witness :
    ([c1StatusType, c1TaskType].Perm [c1TaskType, c1StatusType]) ∧
    (∀ T ∈ [c1TaskType, c1StatusType], ∀ a ∈ T.attributes, a.type_id ≠ T.id →
      ∀ D ∈ [c1TaskType, c1StatusType], D.id = a.type_id →
        startsWithUnderscore D.name = false →
        List.Sublist [D, T] [c1StatusType, c1TaskType]) := by
  have h := sortTypesByDependency_topological [c1TaskType, c1StatusType]
    [c1StatusType, c1TaskType] (by decide) (by decide)
  exact ⟨h.1, h.2.1⟩

/-- C8: `new NullDartType(new NullDartType(X))` collapses to
`new NullDartType(X)`: the produced type name and decode expression of the
doubly wrapped value equal those of the singly wrapped value (in fact the
values are structurally equal). -/
theorem newNullDartType_idempotent (X : DartType) (p : String) :
    (newNullDartType (newNullDartType X)).generateType =
      (newNullDartType X).generateType ∧
    (newNullDartType (newNullDartType X)).generateJsonDecoding p =
      (newNullDartType X).generateJsonDecoding p := by
  have h : newNullDartType (newNullDartType X) = newNullDartType X := by
    cases X <;> rfl
  rw [h]
  exact ⟨rfl, rfl⟩

/-- C9: `ListDartType` serialization distributes over elements: decoding
casts the input to a list and applies the element decoding to the
per-element variable `v` (not to the whole input), and encoding maps the
element encoding over each element. -/
theorem listDartType_distributes (E : DartType) (p : String) :
    (∀ d, E.generateJsonDecoding "v" = .ok d →
      (DartType.listDartType E).generateJsonDecoding p =
        .ok ("(" ++ p ++ " as List<dynamic>).map((v) => " ++ d ++ ").toList()")) ∧
    (DartType.listDartType E).generateJsonEncoding =
      ".map((v) => v" ++ E.generateJsonEncoding ++ ").toList()" := by
  constructor
  · intro d hd
    simp [DartType.generateJsonDecoding, hd]
  · rfl

/-- C9 witness: the list of `int` at input `x`. -/
theorem listDartType_distributes_witness :
    (DartType.builtinDartType .int).generateJsonDecoding "v" = .ok "v as int" ∧
    (DartType.listDartType (.builtinDartType .int)).generateJsonDecoding "x" =
      .ok ("(" ++ "x" ++ " as List<dynamic>).map((v) => " ++ "v as int" ++
        ").toList()") :=
  ⟨rfl, (listDartType_distributes (.builtinDartType .int) "x").1 "v as int" rfl⟩

/-- The claim's first failure condition: the name starts with a
non-alphanumeric character. -/
def headIsSep : List Char → Bool
  | [] => false
  | c :: _ => !isAlnumChar c

/-- The claim's second failure condition: two consecutive non-alphanumeric
characters. -/
def hasDoubleSep : List Char → Bool
  | c1 :: c2 :: rest => (!isAlnumChar c1 && !isAlnumChar c2) || hasDoubleSep (c2 :: rest)
  | _ => false

theorem splitSegs_ne_nil (l : List Char) : splitSegs l ≠ [] := by
  cases l with
  | nil => simp [splitSegs]
  | cons c cs =>
    unfold splitSegs
    by_cases h : isAlnumChar c
    · simp only [h, if_true]
      cases splitSegs cs <;> simp
    · simp [h]

theorem mapM_upperFirstSeg_error {segs : List (List Char)}
    (h : [] ∈ segs) : segs.mapM upperFirstSeg = .error .typeError := by
  induction segs with
  | nil => cases h
  | cons s ss ih =>
    rw [List.mapM_cons]
    cases s with
    | nil => rfl
    | cons c rest =>
      have hmem : [] ∈ ss := by
        rcases List.mem_cons.mp h with heq | hmem
        · cases heq
        · exact hmem
      show (upperFirstSeg (c :: rest) >>= fun b =>
        ss.mapM upperFirstSeg >>= fun bs => pure (b :: bs)) = _
      rw [show upperFirstSeg (c :: rest) = .ok (c.toUpper :: rest) from rfl]
      show (ss.mapM upperFirstSeg >>= fun bs => pure ((c.toUpper :: rest) :: bs)) = _
      rw [ih hmem]
      rfl

theorem hasDoubleSep_empty_tail {l : List Char} (h : hasDoubleSep l = true) :
    [] ∈ (splitSegs l).tail := by
  induction l with
  | nil => simp [hasDoubleSep] at h
  | cons c cs ih =>
    cases cs with
    | nil => simp [hasDoubleSep] at h
    | cons c2 r =>
      rw [show hasDoubleSep (c :: c2 :: r) =
        ((!isAlnumChar c && !isAlnumChar c2) || hasDoubleSep (c2 :: r)) from rfl] at h
      rcases Bool.or_eq_true_iff.mp h with hpair | hrest
      · have hc : isAlnumChar c = false := by
          rcases Bool.and_eq_true_iff.mp hpair with ⟨h1, _⟩
          simpa using h1
        have hc2 : isAlnumChar c2 = false := by
          rcases Bool.and_eq_true_iff.mp hpair with ⟨_, h2⟩
          simpa using h2
        unfold splitSegs
        simp only [hc, Bool.false_eq_true, if_false, List.tail_cons]
        unfold splitSegs
        simp [hc2]
      · have htail := ih hrest
        cases hsplit : splitSegs (c2 :: r) with
        | nil => exact absurd hsplit (splitSegs_ne_nil _)
        | cons seg segs' =>
          rw [hsplit] at htail
          simp only [List.tail_cons] at htail
          unfold splitSegs
          by_cases hc : isAlnumChar c
          · simp only [hc, if_true]
            rw [hsplit]
            simp only [List.tail_cons]
            exact htail
          · simp only [hc, Bool.false_eq_true, if_false, List.tail_cons]
            rw [hsplit]
            exact List.mem_cons_of_mem _ htail

theorem headIsSep_empty_head {l : List Char} (h : headIsSep l = true) :
    [] ∈ splitSegs l := by
  cases l with
  | nil => simp [headIsSep] at h
  | cons c cs =>
    have hc : isAlnumChar c = false := by simpa [headIsSep] using h
    unfold splitSegs
    simp [hc]

/-- C10: `formatForDartClassName` returns a value only when every maximal
alphanumeric segment of the name is non-empty; a name starting with a
non-alphanumeric character, or containing two consecutive non-alphanumeric
characters, produces an empty segment whose first character is undefined,
so the formatter throws instead of returning. -/
theorem formatForDartClassName_segments (name : String) :
    (∀ out, formatForDartClassName name = .ok out →
      ∀ seg ∈ splitSegs name.data, seg ≠ []) ∧
    ((headIsSep name.data = true ∨ hasDoubleSep name.data = true) →
      formatForDartClassName name = .error .typeError) := by
  constructor
  · intro out hout seg hseg hnil
    subst hnil
    unfold formatForDartClassName at hout
    rw [show ((splitSegs name.data).mapM upperFirstSeg) =
      .error .typeError from mapM_upperFirstSeg_error hseg] at hout
    cases hout
  · intro h
    have hmem : [] ∈ splitSegs name.data := by
      rcases h with h | h
      · exact headIsSep_empty_head h
      · exact List.mem_of_mem_tail (hasDoubleSep_empty_tail h)
    unfold formatForDartClassName
    rw [show ((splitSegs name.data).mapM upperFirstSeg) =
      .error .typeError from mapM_upperFirstSeg_error hmem]
    rfl

/-- C10 witness: a well-segmented name is formatted, so its segments are
all non-empty; a name with doubled separators throws. -/
theorem formatForDartClassName_segments_witness :
    (formatForDartClassName "user_name" = .ok "UserName") ∧
    (∀ seg ∈ splitSegs "user_name".data, seg ≠ []) ∧
    (formatForDartClassName "a--b" = .error .typeError) := by
  refine ⟨by rfl, (formatForDartClassName_segments "user_name").1 "UserName" (by rfl), ?_⟩
  exact (formatForDartClassName_segments "a--b").2 (Or.inr (by rfl))

theorem isNullableType_newNullDartType (d : DartType) :
    (newNullDartType d).isNullableType = true := by
  cases d <;> rfl

theorem newNullDartType_ne_of_not_nullable {d : DartType}
    (h : d.isNullableType = false) : newNullDartType d ≠ d := by
  intro he
  have : d.isNullableType = true := by
    rw [← he]
    exact isNullableType_newNullDartType d
  rw [h] at this
  cases this

/-- C4: for a generated, identity, or defaulted column with
`is_nullable = false` whose registry entry resolves to a non-nullable
target type, the base mapping returns that type unwrapped while the
insert-variant mapping returns a freshly `Nullable`-wrapped value — a new
value distinct from the registry entry, which `buildDartTypeFromPostgresColumn`
reads but never writes (the function takes the registry immutably). -/
theorem buildDartTypeFromPostgresColumn_insertVariant
    (c : PostgresColumn) (m : PostgresToDartMap)
    (entry : Option PostgresType × DartType)
    (hfmt : ptdLookup m c.format = some entry)
    (hins : (c.is_generated || c.is_identity || c.default_value.isSome) = true)
    (hnn : c.is_nullable = false)
    (heff : DartType.isNullableType
      (if c.format = "jsonb" then
        match ptdLookup m c.name with
        | some overridden => overridden.2
        | none => entry.2
      else entry.2) = false) :
    ∃ d : DartType,
      buildDartTypeFromPostgresColumn c m false = .ok d ∧
      d.isNullableType = false ∧
      buildDartTypeFromPostgresColumn c m true = .ok (newNullDartType d) ∧
      (newNullDartType d).isNullableType = true ∧
      newNullDartType d ≠ d := by
  refine ⟨(if c.format = "jsonb" then
      match ptdLookup m c.name with
      | some overridden => overridden.2
      | none => entry.2
    else entry.2), ?_, heff, ?_, isNullableType_newNullDartType _,
    newNullDartType_ne_of_not_nullable heff⟩
  · unfold buildDartTypeFromPostgresColumn
    rw [hfmt]
    simp only [hnn, Bool.false_or, Bool.false_and, if_neg (by simp : ¬(false = true))]
    rfl
  · unfold buildDartTypeFromPostgresColumn
    rw [hfmt]
    simp only [hnn, Bool.false_or, Bool.true_and, hins, if_pos rfl]
    rfl

/-- C4 witness: an `int4` column with a default value. -/
theorem buildDartTypeFromPostgresColumn_insertVariant_witness :
    ∃ d : DartType,
      buildDartTypeFromPostgresColumn
        { table_id := 1, name := "n", format := "int4", data_type := "integer",
          is_nullable := false, is_generated := false, is_identity := false,
          default_value := some "0", check := none }
        [("int4", (none, DartType.builtinDartType .int))] false = .ok d ∧
      d.isNullableType = false ∧
      buildDartTypeFromPostgresColumn
        { table_id := 1, name := "n", format := "int4", data_type := "integer",
          is_nullable := false, is_generated := false, is_identity := false,
          default_value := some "0", check := none }
        [("int4", (none, DartType.builtinDartType .int))] true =
          .ok (newNullDartType d) ∧
      (newNullDartType d).isNullableType = true ∧
      newNullDartType d ≠ d :=
  buildDartTypeFromPostgresColumn_insertVariant
    { table_id := 1, name := "n", format := "int4", data_type := "integer",
      is_nullable := false, is_generated := false, is_identity := false,
      default_value := some "0", check := none }
    [("int4", (none, DartType.builtinDartType .int))]
    (none, DartType.builtinDartType .int) (by rfl) (by rfl) (by rfl) (by rfl)

theorem scanColumnFormats_concat (allTypes : List PostgresType)
    (columns : List PostgresColumn) (c : PostgresColumn) :
    scanColumnFormats allTypes (columns ++ [c]) =
      scanColumnStep allTypes (scanColumnFormats allTypes columns) c := by
  unfold scanColumnFormats
  rw [List.foldl_append]
  rfl

theorem scanColumnStep_unresolved (allTypes : List PostgresType)
    (acc : List Nat × List String) (c : PostgresColumn)
    (hname : lookupTypeByName allTypes c.format = none)
    (hbase : startsWithUnderscore c.format = true →
      lookupTypeByName allTypes (dropFirstChar c.format) = none) :
    scanColumnStep allTypes acc c =
      (acc.1, acc.2 ++
        ["Type not found for column " ++ c.name ++ ": format: " ++
          c.format ++ "\tdata_type: " ++ c.data_type]) := by
  unfold scanColumnStep
  rw [hname]
  cases hu : startsWithUnderscore c.format
  · rfl
  · rw [hbase hu]
    rfl

/-- C6 (corrected): a column whose format (and, for an array format, its
base name) names no catalog type indeed contributes nothing to the
required-type closure — `getRequiredTypes` is unchanged except for an
appended diagnostic log line — but the second half of the claim fails:
the mapper supplies no best-effort `dynamic` fallback; when the
column's format has no registry entry,
`buildDartTypeFromPostgresColumn` fails with a TypeError instead of
returning a value. -/
theorem unresolvedFormat_skipped_but_mapper_errors
    (allTypes : List PostgresType) (columns : List PostgresColumn)
    (c : PostgresColumn) (m : PostgresToDartMap) (forInsert : Bool)
    (hname : lookupTypeByName allTypes c.format = none)
    (hbase : startsWithUnderscore c.format = true →
      lookupTypeByName allTypes (dropFirstChar c.format) = none)
    (hmap : ptdLookup m c.format = none) :
    (scanColumnFormats allTypes (columns ++ [c])).1 =
      (scanColumnFormats allTypes columns).1 ∧
    (scanColumnFormats allTypes (columns ++ [c])).2 =
      (scanColumnFormats allTypes columns).2 ++
        ["Type not found for column " ++ c.name ++ ": format: " ++
          c.format ++ "\tdata_type: " ++ c.data_type] ∧
    getRequiredTypes allTypes (columns ++ [c]) =
      (getRequiredTypes allTypes columns).map
        (fun r => (r.1, r.2 ++
          ["Type not found for column " ++ c.name ++ ": format: " ++
            c.format ++ "\tdata_type: " ++ c.data_type])) ∧
    buildDartTypeFromPostgresColumn c m forInsert = .error .typeError := by
  have hscan := scanColumnFormats_concat allTypes columns c
  rw [scanColumnStep_unresolved allTypes _ c hname hbase] at hscan
  refine ⟨by rw [hscan], by rw [hscan], ?_, ?_⟩
  · unfold getRequiredTypes
    rw [hscan]
    dsimp only
    cases collectDepsList allTypes (allTypes.length + 1)
        (scanColumnFormats allTypes columns).1 [] with
    | error e => rfl
    | ok allRequiredTypeIds =>
      dsimp only
      cases sortTypesByDependency
          (allRequiredTypeIds.filterMap (lookupTypeById allTypes)) with
      | error e => rfl
      | ok sorted => rfl
  · unfold buildDartTypeFromPostgresColumn
    rw [hmap]

/-- C6 counterexample to the fallback half: a column whose format
`"madeup"` resolves nowhere is skipped by `getRequiredTypes` with a
diagnostic, yet rendering it fails with a TypeError rather than
producing a `dynamic` fallback type. -/
theorem unresolvedFormat_no_dynamic_fallback :
    getRequiredTypes []
      [{ table_id := 1, name := "c", format := "madeup",
         data_type := "USER-DEFINED", is_nullable := false,
         is_generated := false, is_identity := false,
         default_value := none, check := none }] =
      .ok ([],
        ["Type not found for column c: format: madeup\tdata_type: USER-DEFINED"]) ∧
    buildDartTypeFromPostgresColumn
      { table_id := 1, name := "c", format := "madeup",
        data_type := "USER-DEFINED", is_nullable := false,
        is_generated := false, is_identity := false,
        default_value := none, check := none }
      [("text", (none, DartType.builtinDartType .str))] false =
      .error .typeError := by
  constructor
  · rfl
  · rfl

/-- C6 witness: the theorem applied at the `"madeup"` column over a
one-type catalog and a one-entry registry. -/
theorem unresolvedFormat_skipped_but_mapper_errors_witness :
    (scanColumnFormats
        [{ id := 7, name := "mood", attributes := [], enums := [], comment := none }]
        ([{ table_id := 1, name := "a", format := "mood",
            data_type := "USER-DEFINED", is_nullable := false,
            is_generated := false, is_identity := false,
            default_value := none, check := none }] ++
          [{ table_id := 1, name := "c", format := "nosuch",
             data_type := "USER-DEFINED", is_nullable := false,
             is_generated := false, is_identity := false,
             default_value := none, check := none }])).1 =
      (scanColumnFormats
        [{ id := 7, name := "mood", attributes := [], enums := [], comment := none }]
        [{ table_id := 1, name := "a", format := "mood",
           data_type := "USER-DEFINED", is_nullable := false,
           is_generated := false, is_identity := false,
           default_value := none, check := none }]).1 ∧
    (scanColumnFormats
        [{ id := 7, name := "mood", attributes := [], enums := [], comment := none }]
        ([{ table_id := 1, name := "a", format := "mood",
            data_type := "USER-DEFINED", is_nullable := false,
            is_generated := false, is_identity := false,
            default_value := none, check := none }] ++
          [{ table_id := 1, name := "c", format := "nosuch",
             data_type := "USER-DEFINED", is_nullable := false,
             is_generated := false, is_identity := false,
             default_value := none, check := none }])).2 =
      (scanColumnFormats
        [{ id := 7, name := "mood", attributes := [], enums := [], comment := none }]
        [{ table_id := 1, name := "a", format := "mood",
           data_type := "USER-DEFINED", is_nullable := false,
           is_generated := false, is_identity := false,
           default_value := none, check := none }]).2 ++
        ["Type not found for column c: format: nosuch\tdata_type: USER-DEFINED"] ∧
    getRequiredTypes
        [{ id := 7, name := "mood", attributes := [], enums := [], comment := none }]
        ([{ table_id := 1, name := "a", format := "mood",
            data_type := "USER-DEFINED", is_nullable := false,
            is_generated := false, is_identity := false,
            default_value := none, check := none }] ++
          [{ table_id := 1, name := "c", format := "nosuch",
             data_type := "USER-DEFINED", is_nullable := false,
             is_generated := false, is_identity := false,
             default_value := none, check := none }]) =
      (getRequiredTypes
        [{ id := 7, name := "mood", attributes := [], enums := [], comment := none }]
        [{ table_id := 1, name := "a", format := "mood",
           data_type := "USER-DEFINED", is_nullable := false,
           is_generated := false, is_identity := false,
           default_value := none, check := none }]).map
        (fun r => (r.1, r.2 ++
          ["Type not found for column c: format: nosuch\tdata_type: USER-DEFINED"])) ∧
    buildDartTypeFromPostgresColumn
      { table_id := 1, name := "c", format := "nosuch",
        data_type := "USER-DEFINED", is_nullable := false,
        is_generated := false, is_identity := false,
        default_value := none, check := none }
      [("text", (none, DartType.builtinDartType .str))] false =
      .error .typeError :=
  unresolvedFormat_skipped_but_mapper_errors
    [{ id := 7, name := "mood", attributes := [], enums := [], comment := none }]
    [{ table_id := 1, name := "a", format := "mood",
       data_type := "USER-DEFINED", is_nullable := false,
       is_generated := false, is_identity := false,
       default_value := none, check := none }]
    { table_id := 1, name := "c", format := "nosuch",
      data_type := "USER-DEFINED", is_nullable := false,
      is_generated := false, is_identity := false,
      default_value := none, check := none }
    [("text", (none, DartType.builtinDartType .str))] false
    (by rfl) (by intro h; cases h) (by rfl)

theorem lookupLastField_some_mem {fields : List (String × Json)} {k : String}
    {v : Json} (h : lookupLastField fields k = some v) : k ∈ fields.map (·.1) := by
  unfold lookupLastField at h
  cases hf : fields.reverse.find? (fun e => e.1 == k) with
  | none => rw [hf] at h; cases h
  | some e =>
    have hmem := List.mem_of_find?_eq_some hf
    have hpred := List.find?_some hf
    rw [List.mem_reverse] at hmem
    have hk : e.1 = k := by simpa using hpred
    rw [← hk]
    exact List.mem_map_of_mem _ hmem

theorem length_filter_not_mem_eq_zero (ks values : List String) :
    (((ks.filter (fun k => decide (k ∉ values))).length == 0) : Bool) =
      ks.all (fun k => decide (k ∈ values)) := by
  induction ks with
  | nil => rfl
  | cons k ks ih =>
    rw [List.filter_cons, List.all_cons]
    by_cases hk : k ∈ values
    · rw [if_neg (by simp [hk]), ih]
      simp [hk]
    · rw [if_pos (by simp [hk])]
      simp [hk]

theorem isTranslation_two_locale_obj (en it : List (String × Json))
    (values : List String) :
    DartTs.isTranslation (Json.obj [("en", Json.obj en), ("it", Json.obj it)])
        values =
      .ok ((firstKeys en).all (fun k => decide (k ∈ values)) &&
        (firstKeys it).all (fun k => decide (k ∈ values))) := by
  have h1 : DartTs.isTranslation (Json.obj [("en", Json.obj en), ("it", Json.obj it)])
      values =
      .ok ((((firstKeys en).filter (fun k => decide (k ∉ values))).length == 0) &&
        (((((firstKeys it).filter (fun k => decide (k ∉ values))).length == 0) : Bool) &&
          true)) := rfl
  rw [h1, Bool.and_true, length_filter_not_mem_eq_zero, length_filter_not_mem_eq_zero]

/-- C5 (corrected): constructing the companion template's enum construct
from a commented enum type can fail, contrary to the claim: an invalid
JSON comment throws out of the unguarded `JSON.parse`, and a valid JSON
comment that is a primitive throws a TypeError from the `in` check.
Only when shape validation completes does the claimed behavior hold: the
enum is produced, the translation table is attached exactly when
validation accepts, and a diagnostic is logged exactly when it rejects;
for a two-locale translation table, validation accepts exactly when every
locale table's keys all lie in the enum's value set, so a table with a
stray key is rejected and an exactly-covering table is accepted. -/
theorem newEnumDartConstruct_validation (name : String) (values : List String) :
    DartTs.newEnumDartConstruct name values none =
      .ok ({ originalName := name, values := values, comment := none }, []) ∧
    DartTs.newEnumDartConstruct name values (some (.error ())) =
      .error .jsonParseError ∧
    (∀ parsed : Json, parsed.isObjLike = false →
      DartTs.newEnumDartConstruct name values (some (.ok parsed)) =
        .error .typeError) ∧
    (∀ (parsed : Json) (b : Bool),
      DartTs.isEnumDartComment parsed values = .ok b →
      DartTs.newEnumDartConstruct name values (some (.ok parsed)) =
        (if b then
          .ok ({ originalName := name, values := values, comment := some parsed },
            [])
        else
          .ok ({ originalName := name, values := values, comment := none },
            ["Instatiating " ++ name ++ ": comment " ++ parsed.stringify ++
              " is not a valid enum comment"]))) ∧
    (∀ (pf : List (String × Json)) (en it : List (String × Json)),
      lookupLastField pf "translation" =
        some (Json.obj [("en", Json.obj en), ("it", Json.obj it)]) →
      DartTs.isEnumDartComment (Json.obj pf) values =
        .ok ((firstKeys en).all (fun k => decide (k ∈ values)) &&
          (firstKeys it).all (fun k => decide (k ∈ values)))) := by
  refine ⟨rfl, rfl, ?_, ?_, ?_⟩
  · intro parsed hprim
    cases parsed with
    | obj _ => simp [Json.isObjLike] at hprim
    | arr _ => simp [Json.isObjLike] at hprim
    | null => rfl
    | bool b => rfl
    | num n => rfl
    | str s => rfl
  · intro parsed b hval
    unfold DartTs.newEnumDartConstruct
    dsimp only
    rw [hval]
    cases b
    · rfl
    · rfl
  · intro pf en it htr
    have hmem : "translation" ∈ pf.map (·.1) := lookupLastField_some_mem htr
    have hin : jsIn "translation" (Json.obj pf) = .ok true := by
      simp [jsIn, hmem]
    unfold DartTs.isEnumDartComment
    rw [hin]
    have hget : jsGet (Json.obj pf) "translation" =
        some (Json.obj [("en", Json.obj en), ("it", Json.obj it)]) := htr
    show (match jsGet (Json.obj pf) "translation" with
      | some tr => DartTs.isTranslation tr values
      | none => Except.error JsError.typeError) = _
    rw [hget]
    exact isTranslation_two_locale_obj en it values

/-- C5 counterexample: the comment `"5"` is valid JSON, yet constructing
the enum construct with it throws a TypeError (from `'translation' in 5`)
instead of producing the enum without translations; and an invalid JSON
comment throws out of `JSON.parse`. -/
theorem newEnumDartConstruct_throws :
    DartTs.newEnumDartConstruct "status" ["active"] (some (.ok (Json.num 5))) =
      .error .typeError ∧
    DartTs.newEnumDartConstruct "status" ["active"] (some (.error ())) =
      .error .jsonParseError := by
  exact ⟨rfl, rfl⟩

/-- C5 witness: a stray translation key `"wrong"` is rejected — the enum
is produced without translations and with the diagnostic log line. -/
theorem newEnumDartConstruct_validation_witness :
    DartTs.newEnumDartConstruct "status" ["active"]
        (some (.ok (Json.obj [("translation",
          Json.obj [("en", Json.obj [("wrong", Json.str "x")]),
            ("it", Json.obj [])])]))) =
      .ok ({ originalName := "status", values := ["active"], comment := none },
        ["Instatiating " ++ "status" ++ ": comment " ++
          (Json.obj [("translation",
            Json.obj [("en", Json.obj [("wrong", Json.str "x")]),
              ("it", Json.obj [])])]).stringify ++
          " is not a valid enum comment"]) := by
  have h := newEnumDartConstruct_validation "status" ["active"]
  have h5 := h.2.2.2.2 [("translation",
    Json.obj [("en", Json.obj [("wrong", Json.str "x")]), ("it", Json.obj [])])]
    [("wrong", Json.str "x")] [] rfl
  have hval : DartTs.isEnumDartComment
      (Json.obj [("translation",
        Json.obj [("en", Json.obj [("wrong", Json.str "x")]),
          ("it", Json.obj [])])]) ["active"] = .ok false := by
    rw [h5]
    rfl
  have h4 := h.2.2.2.1 (Json.obj [("translation",
    Json.obj [("en", Json.obj [("wrong", Json.str "x")]),
      ("it", Json.obj [])])]) false hval
  rw [h4]
  rfl


theorem json_sizeOf_pos (j : Json) : 0 < sizeOf j := by
  cases j <;> simp_arith

theorem jsIn_error_eq {k : String} {j : Json} {e : JsError}
    (h : jsIn k j = .error e) : e = .typeError := by
  cases j with
  | obj fields => simp [jsIn] at h
  | arr items => simp [jsIn] at h
  | null => exact (Except.error.inj h).symm
  | bool b => exact (Except.error.inj h).symm
  | num n => exact (Except.error.inj h).symm
  | str s => exact (Except.error.inj h).symm

theorem mapM_upperFirstSeg_error_eq :
    ∀ (segs : List (List Char)) {e : JsError},
      segs.mapM upperFirstSeg = .error e → e = .typeError := by
  intro segs
  induction segs with
  | nil => intro e h; exact Except.noConfusion h
  | cons s ss ih =>
    intro e h
    rw [List.mapM_cons] at h
    cases s with
    | nil => exact (Except.error.inj h).symm
    | cons c rest =>
      rw [show upperFirstSeg (c :: rest) = .ok (c.toUpper :: rest) from rfl] at h
      cases hm : ss.mapM upperFirstSeg with
      | error e2 =>
        rw [hm] at h
        rw [← Except.error.inj h]
        exact ih hm
      | ok ws =>
        rw [hm] at h
        exact Except.noConfusion h

theorem formatForDartClassName_error_eq {s : String} {e : JsError}
    (h : formatForDartClassName s = .error e) : e = .typeError := by
  unfold formatForDartClassName at h
  cases hm : (splitSegs s.data).mapM upperFirstSeg with
  | error e2 =>
    rw [hm] at h
    rw [← Except.error.inj h]
    exact mapM_upperFirstSeg_error_eq _ hm
  | ok ws =>
    rw [hm] at h
    exact Except.noConfusion h

theorem buildJsonschemaPropsWith_no_fuelOut
    (f : Json → Option String → PostgresToDartMap →
      Except JsError (DartType × PostgresToDartMap × List String))
    (propsVal : Json) :
    ∀ (pairs : List (String × Json)) (cp m : PostgresToDartMap),
      (∀ p pv, (p, pv) ∈ pairs → ∀ m',
        f pv (some p) m' ≠ .error .fuelOut) →
      buildJsonschemaPropsWith f propsVal pairs cp m ≠ .error .fuelOut := by
  intro pairs
  induction pairs with
  | nil => intro cp m _ hcontra; exact Except.noConfusion hcontra
  | cons pr rest ih =>
    obtain ⟨p, pv⟩ := pr
    intro cp m hf hcontra
    unfold buildJsonschemaPropsWith at hcontra
    split at hcontra
    next e heq =>
      rw [Except.error.inj hcontra] at heq
      exact hf p pv (List.mem_cons_self _ _) m heq
    next trip heq =>
      split at hcontra
      next e heq2 =>
        rw [Except.error.inj hcontra] at heq2
        exact JsError.noConfusion (jsIn_error_eq heq2)
      next hasRequired heq2 =>
        split at hcontra
        next e heq3 =>
          rw [Except.error.inj hcontra] at heq3
          split at heq3
          · split at heq3
            next hg => exact JsError.noConfusion (Except.error.inj heq3)
            next reqVal hg =>
              split at heq3
              next e2 heq4 =>
                rw [Except.error.inj heq3] at heq4
                exact JsError.noConfusion (jsIn_error_eq heq4)
              next pIn heq4 => exact Except.noConfusion heq3
          · exact Except.noConfusion heq3
        next newType heq3 =>
          split at hcontra
          next e heq4 =>
            rw [Except.error.inj hcontra] at heq4
            refine absurd heq4 (ih _ _ ?_)
            intro q qv hmem m' hbad
            exact hf q qv (List.mem_cons_of_mem _ hmem) m' hbad
          next trip2 heq4 => exact Except.noConfusion hcontra

theorem buildDartTypeFromJsonschema_no_fuelOut :
    ∀ (fuel : Nat) (schema : Json) (name : Option String) (m : PostgresToDartMap),
      sizeOf schema ≤ fuel →
      buildDartTypeFromJsonschema fuel schema name m ≠ .error .fuelOut := by
  intro fuel
  induction fuel with
  | zero =>
    intro schema name m hle
    have := json_sizeOf_pos schema
    omega
  | succ fuel ih =>
    intro schema name m hle hcontra
    rw [buildDartTypeFromJsonschema_succ] at hcontra
    split at hcontra
    next hobj =>
      split at hcontra
      next harr =>
        split at hcontra
        next hit => exact JsError.noConfusion (Except.error.inj hcontra)
        next itemsVal hit =>
          dsimp only at hcontra
          split at hcontra
          next e heq =>
            rw [Except.error.inj hcontra] at heq
            have hlt : sizeOf itemsVal < sizeOf schema := jsGet_sizeOf_lt hobj hit
            exact ih itemsVal _ m (by omega) heq
          next trip heq => exact Except.noConfusion hcontra
      next harr =>
        split at hcontra
        next hobjg =>
          split at hcontra
          next => exact Except.noConfusion hcontra
          next nameStr =>
            split at hcontra
            next hp => exact JsError.noConfusion (Except.error.inj hcontra)
            next propsVal hp =>
              split at hcontra
              next e heq =>
                rw [Except.error.inj hcontra] at heq
                have hlt : sizeOf propsVal < sizeOf schema := jsGet_sizeOf_lt hobj hp
                refine absurd heq (buildJsonschemaPropsWith_no_fuelOut _ _ _ _ _ ?_)
                intro q qv hmem m'
                have hqle : sizeOf qv ≤ sizeOf propsVal := enumOwnProps_sizeOf_le hmem
                exact ih qv (some q) m' (by omega)
              next trip heq =>
                split at hcontra
                next e heqf =>
                  rw [Except.error.inj hcontra] at heqf
                  exact JsError.noConfusion (formatForDartClassName_error_eq heqf)
                next => exact Except.noConfusion hcontra
        next hobjg =>
          repeat' split at hcontra
          all_goals exact Except.noConfusion hcontra
    next hobj => exact Except.noConfusion hcontra

/-- C7 (code bug): the object branch reads the required list from the
wrong place and tests membership the wrong way.  The source checks
`'required' in schema.properties` — but a JSON-schema `required` list is
a sibling of `properties`, not a member of it — so for a standard
document (first conjunct) no property is ever Nullable-wrapped: property
`"b"`, though absent from the `required` list, comes out plain.  When
`required` does sit inside `properties` (second conjunct), it is itself
iterated as a property, and the test `p in schema.properties.required`
checks the array's indices (`"0"`, `"1"`, …) instead of its values, so
property `"a"`, though listed as required, is Nullable-wrapped.  The
nameless fallback half of the claim does hold (third conjunct): with no
name hint the builder logs a diagnostic and returns
`Map(String, dynamic)`. -/
theorem buildDartTypeFromJsonschema_required_check_bug :
    buildDartTypeFromJsonschema 10
        (Json.obj [("type", Json.str "object"),
          ("properties", Json.obj
            [("a", Json.obj [("type", Json.str "string")]),
             ("b", Json.obj [("type", Json.str "string")])]),
          ("required", Json.arr [Json.str "a"])])
        (some "t") [] =
      .ok (.classDartConstructForJsonschema "T"
          [("a", none, .builtinDartType .str), ("b", none, .builtinDartType .str)],
        [("a", none, .builtinDartType .str), ("b", none, .builtinDartType .str)],
        []) ∧
    buildDartTypeFromJsonschema 10
        (Json.obj [("type", Json.str "object"),
          ("properties", Json.obj
            [("a", Json.obj [("type", Json.str "string")]),
             ("required", Json.arr [Json.str "a"])])])
        (some "s") [] =
      .ok (.classDartConstructForJsonschema "S"
          [("a", none, .nullDartType (.builtinDartType .str)),
           ("required", none, .nullDartType (.builtinDartType .dynamic))],
        [("a", none, .nullDartType (.builtinDartType .str)),
         ("required", none, .nullDartType (.builtinDartType .dynamic))],
        []) ∧
    buildDartTypeFromJsonschema 10
        (Json.obj [("type", Json.str "object"),
          ("properties", Json.obj
            [("a", Json.obj [("type", Json.str "string")]),
             ("b", Json.obj [("type", Json.str "string")])]),
          ("required", Json.arr [Json.str "a"])])
        none [] =
      .ok (.mapDartType (.builtinDartType .str) (.builtinDartType .dynamic), [],
        ["No name (undefined) provided for " ++
          (Json.obj [("type", Json.str "object"),
            ("properties", Json.obj
              [("a", Json.obj [("type", Json.str "string")]),
               ("b", Json.obj [("type", Json.str "string")])]),
            ("required", Json.arr [Json.str "a"])]).stringify]) := by
  refine ⟨rfl, rfl, rfl⟩

theorem lookupTypeById_some {allTypes : List PostgresType} {i : Nat}
    {t : PostgresType} (h : lookupTypeById allTypes i = some t) :
    t ∈ allTypes ∧ t.id = i := by
  unfold lookupTypeById at h
  have hm := List.mem_of_find?_eq_some h
  have hp := List.find?_some h
  rw [List.mem_reverse] at hm
  exact ⟨hm, by simpa using hp⟩

theorem lookupTypeByName_some {allTypes : List PostgresType} {nm : String}
    {t : PostgresType} (h : lookupTypeByName allTypes nm = some t) :
    t ∈ allTypes ∧ t.name = nm := by
  unfold lookupTypeByName at h
  have hm := List.mem_of_find?_eq_some h
  have hp := List.find?_some h
  rw [List.mem_reverse] at hm
  exact ⟨hm, by simpa using hp⟩

theorem lookupTypeById_of_mem {allTypes : List PostgresType} {t : PostgresType}
    (h : t ∈ allTypes) : lookupTypeById allTypes t.id ≠ none := by
  unfold lookupTypeById
  intro hn
  rw [List.find?_eq_none] at hn
  have := hn t (List.mem_reverse.mpr h)
  simp at this

theorem insertIdOnce_subset {l : List Nat} {x : Nat} :
    ∀ i ∈ l, i ∈ insertIdOnce l x := by
  intro i hi
  unfold insertIdOnce
  split
  · exact hi
  · exact List.mem_append_left _ hi

theorem insertIdOnce_self (l : List Nat) (x : Nat) : x ∈ insertIdOnce l x := by
  unfold insertIdOnce
  split
  next h => exact h
  next h => exact List.mem_append_right _ (List.mem_singleton.mpr rfl)

theorem mem_insertIdOnce {l : List Nat} {x i : Nat}
    (h : i ∈ insertIdOnce l x) : i ∈ l ∨ i = x := by
  unfold insertIdOnce at h
  split at h
  · exact Or.inl h
  · rcases List.mem_append.mp h with h1 | h1
    · exact Or.inl h1
    · exact Or.inr (List.mem_singleton.mp h1)

theorem scanColumnStep_mono (allTypes : List PostgresType)
    (acc : List Nat × List String) (c : PostgresColumn) :
    ∀ i ∈ acc.1, i ∈ (scanColumnStep allTypes acc c).1 := by
  intro i hi
  unfold scanColumnStep
  dsimp only
  split
  next t ht =>
    split
    next t2 ht2 => exact insertIdOnce_subset _ (insertIdOnce_subset _ hi)
    next ht2 => exact insertIdOnce_subset _ hi
  next ht =>
    split
    next t2 ht2 => exact insertIdOnce_subset _ hi
    next ht2 => exact hi

theorem scanColumnStep_new {allTypes : List PostgresType}
    {acc : List Nat × List String} {c : PostgresColumn} :
    ∀ i ∈ (scanColumnStep allTypes acc c).1,
      i ∈ acc.1 ∨
      (∃ t, lookupTypeByName allTypes c.format = some t ∧ i = t.id) ∨
      (startsWithUnderscore c.format = true ∧
        ∃ t, lookupTypeByName allTypes (dropFirstChar c.format) = some t ∧
          i = t.id) := by
  intro i hi
  unfold scanColumnStep at hi
  dsimp only at hi
  split at hi
  next t ht =>
    have hu : startsWithUnderscore c.format = true := by
      by_contra hf
      rw [if_neg hf] at ht
      cases ht
    rw [if_pos hu] at ht
    split at hi
    next t2 ht2 =>
      rcases mem_insertIdOnce hi with h1 | h1
      · rcases mem_insertIdOnce h1 with h2 | h2
        · exact Or.inl h2
        · exact Or.inr (Or.inl ⟨t2, ht2, h2⟩)
      · exact Or.inr (Or.inr ⟨hu, t, ht, h1⟩)
    next ht2 =>
      rcases mem_insertIdOnce hi with h1 | h1
      · exact Or.inl h1
      · exact Or.inr (Or.inr ⟨hu, t, ht, h1⟩)
  next ht =>
    split at hi
    next t2 ht2 =>
      rcases mem_insertIdOnce hi with h1 | h1
      · exact Or.inl h1
      · exact Or.inr (Or.inl ⟨t2, ht2, h1⟩)
    next ht2 => exact Or.inl hi

theorem scanColumnStep_direct {allTypes : List PostgresType}
    {acc : List Nat × List String} {c : PostgresColumn} {t : PostgresType}
    (hl : lookupTypeByName allTypes c.format = some t) :
    t.id ∈ (scanColumnStep allTypes acc c).1 := by
  unfold scanColumnStep
  dsimp only
  rw [hl]
  split
  next t2 ht2 => exact insertIdOnce_subset _ (insertIdOnce_self _ _)
  next ht2 => exact insertIdOnce_self _ _

theorem scanColumnStep_base {allTypes : List PostgresType}
    {acc : List Nat × List String} {c : PostgresColumn} {t : PostgresType}
    (hu : startsWithUnderscore c.format = true)
    (hl : lookupTypeByName allTypes (dropFirstChar c.format) = some t) :
    t.id ∈ (scanColumnStep allTypes acc c).1 := by
  unfold scanColumnStep
  dsimp only
  rw [if_pos hu, hl]
  exact insertIdOnce_self _ _

theorem scanColumnFormats_foldl_mono (allTypes : List PostgresType) :
    ∀ (columns : List PostgresColumn) (acc : List Nat × List String),
      ∀ i ∈ acc.1, i ∈ (columns.foldl (scanColumnStep allTypes) acc).1 := by
  intro columns
  induction columns with
  | nil => intro acc i hi; exact hi
  | cons c cs ih =>
    intro acc i hi
    rw [List.foldl_cons]
    exact ih _ _ (scanColumnStep_mono _ _ _ _ hi)

theorem scanColumnFormats_mem_direct {allTypes : List PostgresType}
    {columns : List PostgresColumn} {c : PostgresColumn} {t : PostgresType}
    (hc : c ∈ columns) (hl : lookupTypeByName allTypes c.format = some t) :
    t.id ∈ (scanColumnFormats allTypes columns).1 := by
  unfold scanColumnFormats
  obtain ⟨l1, l2, rfl⟩ := List.append_of_mem hc
  rw [List.foldl_append, List.foldl_cons]
  exact scanColumnFormats_foldl_mono _ _ _ _ (scanColumnStep_direct hl)

theorem scanColumnFormats_mem_base {allTypes : List PostgresType}
    {columns : List PostgresColumn} {c : PostgresColumn} {t : PostgresType}
    (hc : c ∈ columns) (hu : startsWithUnderscore c.format = true)
    (hl : lookupTypeByName allTypes (dropFirstChar c.format) = some t) :
    t.id ∈ (scanColumnFormats allTypes columns).1 := by
  unfold scanColumnFormats
  obtain ⟨l1, l2, rfl⟩ := List.append_of_mem hc
  rw [List.foldl_append, List.foldl_cons]
  exact scanColumnFormats_foldl_mono _ _ _ _ (scanColumnStep_base hu hl)

theorem scanColumnFormats_required (allTypes : List PostgresType)
    (columns : List PostgresColumn) :
    ∀ i ∈ (scanColumnFormats allTypes columns).1,
      RequiredTypeId allTypes columns i := by
  suffices hgen : ∀ (cols : List PostgresColumn) (acc : List Nat × List String),
      (∀ c ∈ cols, c ∈ columns) →
      (∀ i ∈ acc.1, RequiredTypeId allTypes columns i) →
      ∀ i ∈ (cols.foldl (scanColumnStep allTypes) acc).1,
        RequiredTypeId allTypes columns i by
    intro i hi
    exact hgen columns ([], []) (fun _ h => h) (by intro i hi; cases hi) i hi
  intro cols
  induction cols with
  | nil => intro acc _ hacc i hi; exact hacc i hi
  | cons c cs ih =>
    intro acc hmem hacc i hi
    rw [List.foldl_cons] at hi
    refine ih _ (fun d hd => hmem d (List.mem_cons_of_mem _ hd)) ?_ i hi
    intro j hj
    rcases scanColumnStep_new j hj with h1 | h1 | h1
    · exact hacc j h1
    · obtain ⟨t, hl, rfl⟩ := h1
      exact RequiredTypeId.direct c t (hmem c (List.mem_cons_self _ _)) hl
    · obtain ⟨hu, t, hl, rfl⟩ := h1
      exact RequiredTypeId.directBase c t (hmem c (List.mem_cons_self _ _)) hu hl

/-- The closedness invariant of the collection phase: every collected id
whose processing is finished (not in the pending list `P`) already has
all its resolvable successors collected. -/
def CollectClosed (allTypes : List PostgresType) (acc P : List Nat) : Prop :=
  ∀ i ∈ acc, i ∉ P → ∀ t, lookupTypeById allTypes i = some t →
    (∀ a ∈ t.attributes, lookupTypeById allTypes a.type_id ≠ none →
      a.type_id ∈ acc) ∧
    (startsWithUnderscore t.name = true →
      ∀ t', lookupTypeByName allTypes (dropFirstChar t.name) = some t' →
        t'.id ∈ acc)

theorem collectListWith_spec (allTypes : List PostgresType)
    (f : Nat → List Nat → Except SortError (List Nat))
    (hf : ∀ typeId acc acc', f typeId acc = .ok acc' →
      (∀ i ∈ acc, i ∈ acc') ∧
      (lookupTypeById allTypes typeId ≠ none → typeId ∈ acc') ∧
      (∀ P, CollectClosed allTypes acc P → CollectClosed allTypes acc' P) ∧
      (acc.Nodup → acc'.Nodup)) :
    ∀ (ids acc acc' : List Nat), collectListWith f ids acc = .ok acc' →
      (∀ i ∈ acc, i ∈ acc') ∧
      (∀ j ∈ ids, lookupTypeById allTypes j ≠ none → j ∈ acc') ∧
      (∀ P, CollectClosed allTypes acc P → CollectClosed allTypes acc' P) ∧
      (acc.Nodup → acc'.Nodup) := by
  intro ids
  induction ids with
  | nil =>
    intro acc acc' h
    cases h
    refine ⟨fun i hi => hi, ?_, fun P hP => hP, id⟩
    intro j hj hres
    cases hj
  | cons j ids ih =>
    intro acc acc' h
    unfold collectListWith at h
    split at h
    next e heq => cases h
    next acc1 heq =>
      obtain ⟨m1, p1, c1, n1⟩ := hf j acc acc1 heq
      obtain ⟨m2, p2, c2, n2⟩ := ih acc1 acc' h
      refine ⟨fun i hi => m2 _ (m1 i hi), ?_, fun P hP => c2 P (c1 P hP),
        fun hn => n2 (n1 hn)⟩
      intro k hk hres
      rcases List.mem_cons.mp hk with hk' | hk'
      · rw [hk'] at hres ⊢
        exact m2 _ (p1 hres)
      · exact p2 k hk' hres

theorem collectDependencies_spec (allTypes : List PostgresType) :
    ∀ (fuel typeId : Nat) (acc acc' : List Nat),
      collectDependencies allTypes fuel typeId acc = .ok acc' →
      (∀ i ∈ acc, i ∈ acc') ∧
      (lookupTypeById allTypes typeId ≠ none → typeId ∈ acc') ∧
      (∀ P, CollectClosed allTypes acc P → CollectClosed allTypes acc' P) ∧
      (acc.Nodup → acc'.Nodup) := by
  intro fuel
  induction fuel with
  | zero => intro typeId acc acc' h; cases h
  | succ fuel ih =>
    intro typeId acc acc' h
    unfold collectDependencies at h
    split at h
    next hmem =>
      cases h
      exact ⟨fun i hi => hi, fun _ => hmem, fun P hP => hP, id⟩
    next hmem =>
      split at h
      next hfind =>
        cases h
        refine ⟨fun i hi => hi, ?_, fun P hP => hP, id⟩
        intro hres
        exact absurd hfind hres
      next t hfind =>
        split at h
        next e heq => cases h
        next acc2 heq =>
          obtain ⟨lm, lp, lc, ln⟩ :=
            collectListWith_spec allTypes _ (fun tid a a' hh => ih tid a a' hh)
              _ _ _ heq
          have hstep : ∀ P, CollectClosed allTypes acc P →
              CollectClosed allTypes (acc ++ [typeId]) (typeId :: P) := by
            intro P hP i hi hiP t0 hl
            have hiacc : i ∈ acc := by
              rcases List.mem_append.mp hi with h1 | h1
              · exact h1
              · exact absurd (List.mem_singleton.mp h1)
                  (fun hh => hiP (hh ▸ List.mem_cons_self _ _))
            have hiP' : i ∉ P := fun hh => hiP (List.mem_cons_of_mem _ hh)
            obtain ⟨ha, hb⟩ := hP i hiacc hiP' t0 hl
            exact ⟨fun a hha hres => List.mem_append_left _ (ha a hha hres),
              fun hu t' hl' => List.mem_append_left _ (hb hu t' hl')⟩
          have haccm : ∀ i ∈ acc, i ∈ acc2 :=
            fun i hi => lm i (List.mem_append_left _ hi)
          have htid2 : typeId ∈ acc2 :=
            lm typeId (List.mem_append_right _ (List.mem_singleton.mpr rfl))
          have hnd2 : acc.Nodup → acc2.Nodup := by
            intro hn
            refine ln ?_
            rw [List.nodup_append]
            exact ⟨hn, List.nodup_singleton _,
              by intro a ha hb; rw [List.mem_singleton] at hb; rw [hb] at ha; exact hmem ha⟩
          split at h
          next hund =>
            split at h
            next t'' hbase =>
              obtain ⟨bm, bp, bc, bn⟩ := ih t''.id acc2 acc' h
              have hres'' : lookupTypeById allTypes t''.id ≠ none :=
                lookupTypeById_of_mem (lookupTypeByName_some hbase).1
              refine ⟨fun i hi => bm i (haccm i hi),
                fun _ => bm _ htid2, ?_, fun hn => bn (hnd2 hn)⟩
              intro P hP
              have hfull : CollectClosed allTypes acc' (typeId :: P) :=
                bc (typeId :: P) (lc (typeId :: P) (hstep P hP))
              intro i hi hiP t0 hl
              by_cases hit : i = typeId
              · rw [hit] at hl
                have ht0 : t0 = t := by
                  rw [hfind] at hl
                  exact Option.some.inj hl.symm
                rw [ht0]
                constructor
                · intro a hha hres
                  exact bm _ (lp _ (List.mem_map_of_mem _ hha) hres)
                · intro hu t' hl'
                  have ht' : t' = t'' := by
                    rw [hbase] at hl'
                    exact Option.some.inj hl'.symm
                  rw [ht']
                  exact bp hres''
              · refine hfull i hi ?_ t0 hl
                intro hh
                rcases List.mem_cons.mp hh with h1 | h1
                · exact hit h1
                · exact hiP h1
            next hbase =>
              cases h
              refine ⟨haccm, fun _ => htid2, ?_, hnd2⟩
              intro P hP
              have hfull : CollectClosed allTypes acc' (typeId :: P) :=
                lc (typeId :: P) (hstep P hP)
              intro i hi hiP t0 hl
              by_cases hit : i = typeId
              · rw [hit] at hl
                have ht0 : t0 = t := by
                  rw [hfind] at hl
                  exact Option.some.inj hl.symm
                rw [ht0]
                constructor
                · intro a hha hres
                  exact lp _ (List.mem_map_of_mem _ hha) hres
                · intro hu t' hl'
                  rw [hbase] at hl'
                  cases hl'
              · refine hfull i hi ?_ t0 hl
                intro hh
                rcases List.mem_cons.mp hh with h1 | h1
                · exact hit h1
                · exact hiP h1
          next hund =>
            cases h
            refine ⟨haccm, fun _ => htid2, ?_, hnd2⟩
            intro P hP
            have hfull : CollectClosed allTypes acc' (typeId :: P) :=
              lc (typeId :: P) (hstep P hP)
            intro i hi hiP t0 hl
            by_cases hit : i = typeId
            · rw [hit] at hl
              have ht0 : t0 = t := by
                rw [hfind] at hl
                exact Option.some.inj hl.symm
              rw [ht0]
              constructor
              · intro a hha hres
                exact lp _ (List.mem_map_of_mem _ hha) hres
              · intro hu t' hl'
                rw [hu] at hund
                exact absurd rfl hund
            · refine hfull i hi ?_ t0 hl
              intro hh
              rcases List.mem_cons.mp hh with h1 | h1
              · exact hit h1
              · exact hiP h1

theorem collectListWith_required (allTypes : List PostgresType)
    (columns : List PostgresColumn)
    (f : Nat → List Nat → Except SortError (List Nat))
    (hf : ∀ typeId acc acc', f typeId acc = .ok acc' →
      (lookupTypeById allTypes typeId ≠ none →
        RequiredTypeId allTypes columns typeId) →
      (∀ i ∈ acc, RequiredTypeId allTypes columns i) →
      ∀ i ∈ acc', RequiredTypeId allTypes columns i) :
    ∀ ids acc acc', collectListWith f ids acc = .ok acc' →
      (∀ j ∈ ids, lookupTypeById allTypes j ≠ none →
        RequiredTypeId allTypes columns j) →
      (∀ i ∈ acc, RequiredTypeId allTypes columns i) →
      ∀ i ∈ acc', RequiredTypeId allTypes columns i := by
  intro ids
  induction ids with
  | nil =>
    intro acc acc' h _ hacc
    cases h
    exact hacc
  | cons j ids ih =>
    intro acc acc' h hids hacc
    unfold collectListWith at h
    split at h
    next e heq => cases h
    next acc1 heq =>
      exact ih acc1 acc' h (fun k hk => hids k (List.mem_cons_of_mem _ hk))
        (hf j acc acc1 heq (hids j (List.mem_cons_self _ _)) hacc)

theorem collectDependencies_required (allTypes : List PostgresType)
    (columns : List PostgresColumn) :
    ∀ (fuel typeId : Nat) (acc acc' : List Nat),
      collectDependencies allTypes fuel typeId acc = .ok acc' →
      (lookupTypeById allTypes typeId ≠ none →
        RequiredTypeId allTypes columns typeId) →
      (∀ i ∈ acc, RequiredTypeId allTypes columns i) →
      ∀ i ∈ acc', RequiredTypeId allTypes columns i := by
  intro fuel
  induction fuel with
  | zero => intro typeId acc acc' h; cases h
  | succ fuel ih =>
    intro typeId acc acc' h hreq hacc
    unfold collectDependencies at h
    split at h
    next hmem =>
      cases h
      exact hacc
    next hmem =>
      split at h
      next hfind =>
        cases h
        exact hacc
      next t hfind =>
        have hreqT : RequiredTypeId allTypes columns typeId := by
          refine hreq ?_
          rw [hfind]
          intro hh
          cases hh
        split at h
        next e heq => cases h
        next acc2 heq =>
          have hacc1 : ∀ i ∈ acc ++ [typeId],
              RequiredTypeId allTypes columns i := by
            intro i hi
            rcases List.mem_append.mp hi with h1 | h1
            · exact hacc i h1
            · rw [List.mem_singleton.mp h1]
              exact hreqT
          have hloopids : ∀ j ∈ t.attributes.map (·.type_id),
              lookupTypeById allTypes j ≠ none →
              RequiredTypeId allTypes columns j := by
            intro j hj hres
            obtain ⟨a, ha, rfl⟩ := List.mem_map.mp hj
            cases hsome : lookupTypeById allTypes a.type_id with
            | none => exact absurd hsome hres
            | some t' => exact RequiredTypeId.attrRef typeId t a t' hreqT hfind ha hsome
          have hacc2 : ∀ i ∈ acc2, RequiredTypeId allTypes columns i :=
            collectListWith_required allTypes columns _
              (fun tid a a' hh => ih tid a a' hh) _ _ _ heq hloopids hacc1
          split at h
          next hund =>
            split at h
            next t'' hbase =>
              have hreq'' : RequiredTypeId allTypes columns t''.id :=
                RequiredTypeId.arrayBase typeId t t'' hreqT hfind hund hbase
              exact ih t''.id acc2 acc' h (fun _ => hreq'') hacc2
            next hbase =>
              cases h
              exact hacc2
          next hund =>
            cases h
            exact hacc2

theorem requiredTypeId_resolvable {allTypes : List PostgresType}
    {columns : List PostgresColumn} {i : Nat}
    (h : RequiredTypeId allTypes columns i) :
    lookupTypeById allTypes i ≠ none := by
  cases h with
  | direct c t hc hl => exact lookupTypeById_of_mem (lookupTypeByName_some hl).1
  | directBase c t hc hu hl => exact lookupTypeById_of_mem (lookupTypeByName_some hl).1
  | attrRef typeId t a t' hreq hfind ha hsome =>
    rw [hsome]
    intro hh
    cases hh
  | arrayBase typeId t t' hreq hfind hu hl =>
    exact lookupTypeById_of_mem (lookupTypeByName_some hl).1

/-- The ids of the catalog not yet collected: the fuel measure of the
collection phase. -/
def collectRemaining (allTypes : List PostgresType) (acc : List Nat) : Nat :=
  ((allTypes.map (·.id)).filter (fun i => decide (i ∉ acc))).length

theorem length_filter_le_of_imp {l : List Nat} {p q : Nat → Bool}
    (himp : ∀ x, p x = true → q x = true) :
    (l.filter p).length ≤ (l.filter q).length := by
  induction l with
  | nil => simp
  | cons x xs ih =>
    rw [List.filter_cons, List.filter_cons]
    by_cases hx : p x = true
    · rw [if_pos hx, if_pos (himp x hx)]
      simpa using ih
    · rw [if_neg hx]
      split
      · exact le_trans ih (by simp)
      · exact ih

theorem length_filter_lt {l : List Nat} {p q : Nat → Bool}
    (himp : ∀ x, p x = true → q x = true) {a : Nat} (ha : a ∈ l)
    (hpa : p a = false) (hqa : q a = true) :
    (l.filter p).length < (l.filter q).length := by
  induction l with
  | nil => cases ha
  | cons x xs ih =>
    rw [List.filter_cons, List.filter_cons]
    rcases List.mem_cons.mp ha with hx | hx
    · rw [hx] at hpa hqa
      rw [if_neg (by rw [hpa]; intro hh; cases hh), if_pos hqa]
      have := @length_filter_le_of_imp xs p q himp
      simpa using Nat.lt_succ_of_le this
    · by_cases hpx : p x = true
      · rw [if_pos hpx, if_pos (himp x hpx)]
        simpa using ih hx
      · rw [if_neg hpx]
        split
        · exact lt_of_lt_of_le (ih hx) (by simp)
        · exact ih hx

theorem collectRemaining_mono {allTypes : List PostgresType}
    {a a' : List Nat} (h : ∀ i ∈ a, i ∈ a') :
    collectRemaining allTypes a' ≤ collectRemaining allTypes a := by
  unfold collectRemaining
  refine length_filter_le_of_imp ?_
  intro x hx
  simp only [decide_eq_true_eq] at hx ⊢
  intro hmem
  exact hx (h x hmem)

theorem collectRemaining_lt {allTypes : List PostgresType} {acc : List Nat}
    {typeId : Nat} (hmem : typeId ∈ allTypes.map (·.id))
    (hnot : typeId ∉ acc) :
    collectRemaining allTypes (acc ++ [typeId]) < collectRemaining allTypes acc := by
  unfold collectRemaining
  refine length_filter_lt ?_ hmem ?_ ?_
  · intro x hx
    simp only [decide_eq_true_eq] at hx ⊢
    intro hmem2
    exact hx (List.mem_append_left _ hmem2)
  · simp
  · simpa using hnot

theorem collectListWith_error_eq
    (f : Nat → List Nat → Except SortError (List Nat))
    (hf : ∀ tid a e, f tid a = .error e → e = .fuelOut) :
    ∀ ids acc e, collectListWith f ids acc = .error e → e = .fuelOut := by
  intro ids
  induction ids with
  | nil => intro acc e h; cases h
  | cons j ids ih =>
    intro acc e h
    unfold collectListWith at h
    split at h
    next e' heq =>
      rw [← Except.error.inj h]
      exact hf _ _ _ heq
    next acc1 heq => exact ih acc1 e h

theorem collectDependencies_error_eq (allTypes : List PostgresType) :
    ∀ (fuel tid : Nat) (acc : List Nat) (e : SortError),
      collectDependencies allTypes fuel tid acc = .error e → e = .fuelOut := by
  intro fuel
  induction fuel with
  | zero =>
    intro tid acc e h
    exact (Except.error.inj h).symm
  | succ fuel ih =>
    intro tid acc e h
    unfold collectDependencies at h
    split at h
    next hmem => cases h
    next hmem =>
      split at h
      next hfind => cases h
      next t hfind =>
        split at h
        next e' heq =>
          rw [← Except.error.inj h]
          exact collectListWith_error_eq _ (fun a b c hh => ih a b c hh) _ _ _ heq
        next acc2 heq =>
          split at h
          next hund =>
            split at h
            next t'' hbase => exact ih _ _ _ h
            next hbase => cases h
          next hund => cases h

theorem collectListWith_no_fuelOut
    (f : Nat → List Nat → Except SortError (List Nat)) (B : List Nat → Prop)
    (hmono : ∀ tid a a', f tid a = .ok a' → ∀ i ∈ a, i ∈ a')
    (hBmono : ∀ a a', (∀ i ∈ a, i ∈ a') → B a → B a')
    (hnf : ∀ tid a, B a → f tid a ≠ .error .fuelOut)
    (herr : ∀ tid a e, f tid a = .error e → e = .fuelOut) :
    ∀ ids acc, B acc → collectListWith f ids acc ≠ .error .fuelOut := by
  intro ids
  induction ids with
  | nil =>
    intro acc _ hcontra
    cases hcontra
  | cons j ids ih =>
    intro acc hB hcontra
    unfold collectListWith at hcontra
    split at hcontra
    next e heq =>
      rw [herr _ _ _ heq] at heq
      exact hnf j acc hB heq
    next acc1 heq =>
      exact ih acc1 (hBmono _ _ (hmono _ _ _ heq) hB) hcontra

theorem collectDependencies_no_fuelOut (allTypes : List PostgresType) :
    ∀ (fuel tid : Nat) (acc : List Nat),
      collectRemaining allTypes acc < fuel →
      collectDependencies allTypes fuel tid acc ≠ .error .fuelOut := by
  intro fuel
  induction fuel with
  | zero =>
    intro tid acc hB
    omega
  | succ fuel ih =>
    intro tid acc hB hcontra
    unfold collectDependencies at hcontra
    split at hcontra
    next hmem => cases hcontra
    next hmem =>
      split at hcontra
      next hfind => cases hcontra
      next t hfind =>
        have hmemid : tid ∈ allTypes.map (·.id) := by
          obtain ⟨ht, hid⟩ := lookupTypeById_some hfind
          exact List.mem_map.mpr ⟨t, ht, hid⟩
        have hB1 : collectRemaining allTypes (acc ++ [tid]) < fuel := by
          have := @collectRemaining_lt allTypes acc tid hmemid hmem
          omega
        split at hcontra
        next e heq =>
          rw [Except.error.inj hcontra] at heq
          refine collectListWith_no_fuelOut _
            (fun a => collectRemaining allTypes a < fuel)
            (fun tid2 a a' hh => (collectDependencies_spec allTypes fuel tid2 a a' hh).1)
            (fun a a' hsub hb => lt_of_le_of_lt (collectRemaining_mono hsub) hb)
            (fun tid2 a hb => ih tid2 a hb)
            (fun tid2 a e' hh => collectDependencies_error_eq allTypes fuel tid2 a e' hh)
            _ _ hB1 heq
        next acc2 heq =>
          have hsub2 : ∀ i ∈ acc ++ [tid], i ∈ acc2 :=
            (collectListWith_spec allTypes _
              (fun tid2 a a' hh => collectDependencies_spec allTypes fuel tid2 a a' hh)
              _ _ _ heq).1
          have hB2 : collectRemaining allTypes acc2 < fuel :=
            lt_of_le_of_lt (collectRemaining_mono hsub2) hB1
          split at hcontra
          next hund =>
            split at hcontra
            next t'' hbase => exact ih _ _ hB2 hcontra
            next hbase => cases hcontra
          next hund => cases hcontra

theorem collectDepsList_top_ok (allTypes : List PostgresType) (ids : List Nat) :
    ∃ acc', collectDepsList allTypes (allTypes.length + 1) ids [] = .ok acc' := by
  cases hres : collectDepsList allTypes (allTypes.length + 1) ids [] with
  | error e =>
    have he : e = .fuelOut := by
      refine collectListWith_error_eq _ ?_ _ _ _ hres
      intro tid a e' hh
      exact collectDependencies_error_eq allTypes _ tid a e' hh
    rw [he] at hres
    have hB : collectRemaining allTypes [] < allTypes.length + 1 := by
      unfold collectRemaining
      have h1 := List.length_filter_le (fun i => decide (i ∉ ([] : List Nat)))
        (allTypes.map (·.id))
      rw [List.length_map] at h1
      omega
    exact absurd hres (collectListWith_no_fuelOut _
      (fun a => collectRemaining allTypes a < allTypes.length + 1)
      (fun tid2 a a' hh => (collectDependencies_spec allTypes _ tid2 a a' hh).1)
      (fun a a' hsub hb => lt_of_le_of_lt (collectRemaining_mono hsub) hb)
      (fun tid2 a hb => collectDependencies_no_fuelOut allTypes _ tid2 a hb)
      (fun tid2 a e' hh => collectDependencies_error_eq allTypes _ tid2 a e' hh)
      _ _ hB)
  | ok acc' => exact ⟨acc', rfl⟩

theorem filterMap_lookup_map_id {allTypes : List PostgresType} :
    ∀ ids : List Nat, (∀ i ∈ ids, lookupTypeById allTypes i ≠ none) →
      (ids.filterMap (lookupTypeById allTypes)).map (·.id) = ids := by
  intro ids
  induction ids with
  | nil => intro _; rfl
  | cons i is ih =>
    intro hres
    cases hsome : lookupTypeById allTypes i with
    | none => exact absurd hsome (hres i (List.mem_cons_self _ _))
    | some t =>
      simp only [List.filterMap_cons, hsome, List.map_cons]
      rw [ih (fun j hj => hres j (List.mem_cons_of_mem _ hj)),
        (lookupTypeById_some hsome).2]

/-- C3 (confirmed): whenever `getRequiredTypes` returns, its output is
exactly the materialization of the transitive closure `RequiredTypeId`
of the ids directly referenced by the columns' formats (including, for an
array-format column, the non-array base type), closed under attribute
references and array-to-base references — no extraneous types, no missing
transitive dependency — and the output is that set sorted via
`sortTypesByDependency`. -/
theorem getRequiredTypes_closure (allTypes : List PostgresType)
    (columns : List PostgresColumn) (out : List PostgresType)
    (logs : List String)
    (h : getRequiredTypes allTypes columns = .ok (out, logs)) :
    (∀ t, t ∈ out ↔ ∃ i, RequiredTypeId allTypes columns i ∧
      lookupTypeById allTypes i = some t) ∧
    (∃ req : List PostgresType,
      sortTypesByDependency req = .ok out ∧
      ∀ t, t ∈ req ↔ ∃ i, RequiredTypeId allTypes columns i ∧
        lookupTypeById allTypes i = some t) := by
  unfold getRequiredTypes at h
  dsimp only at h
  split at h
  next e heq => cases h
  next ids heq =>
    split at h
    next e heq2 => cases h
    next sorted heq2 =>
      have hpair := Except.ok.inj h
      have hsorted : sorted = out := congrArg Prod.fst hpair
      rw [hsorted] at heq2
      unfold collectDepsList at heq
      have hseedreq := scanColumnFormats_required allTypes columns
      have hreqids : ∀ i ∈ ids, RequiredTypeId allTypes columns i :=
        collectListWith_required allTypes columns _
          (fun tid a a' hh =>
            collectDependencies_required allTypes columns _ tid a a' hh)
          _ _ _ heq (fun j hj _ => hseedreq j hj) (by intro i hi; cases hi)
      obtain ⟨lm, lp, lc, lnodup⟩ :=
        collectListWith_spec allTypes _
          (fun tid a a' hh => collectDependencies_spec allTypes _ tid a a' hh)
          _ _ _ heq
      have hclosed : CollectClosed allTypes ids [] :=
        lc [] (by intro i hi; cases hi)
      have hcomp : ∀ i, RequiredTypeId allTypes columns i → i ∈ ids := by
        intro i hreq
        induction hreq with
        | direct c t hc hl =>
          exact lp _ (scanColumnFormats_mem_direct hc hl)
            (lookupTypeById_of_mem (lookupTypeByName_some hl).1)
        | directBase c t hc hu hl =>
          exact lp _ (scanColumnFormats_mem_base hc hu hl)
            (lookupTypeById_of_mem (lookupTypeByName_some hl).1)
        | attrRef typeId t a t' hreq2 hfind ha hsome ih =>
          have hc := hclosed typeId ih (by intro hh; cases hh) t hfind
          refine hc.1 a ha ?_
          rw [hsome]
          intro hh
          cases hh
        | arrayBase typeId t t' hreq2 hfind hu hl ih =>
          have hc := hclosed typeId ih (by intro hh; cases hh) t hfind
          exact hc.2 hu t' hl
      have hids_iff : ∀ i, i ∈ ids ↔ RequiredTypeId allTypes columns i :=
        fun i => ⟨hreqids i, hcomp i⟩
      have hresolvable : ∀ i ∈ ids, lookupTypeById allTypes i ≠ none :=
        fun i hi => requiredTypeId_resolvable (hreqids i hi)
      have hnodup_req_ids :
          (((ids.filterMap (lookupTypeById allTypes)).map (·.id))).Nodup := by
        rw [filterMap_lookup_map_id ids hresolvable]
        exact lnodup List.nodup_nil
      have hmem_req : ∀ t, t ∈ ids.filterMap (lookupTypeById allTypes) ↔
          ∃ i, RequiredTypeId allTypes columns i ∧
            lookupTypeById allTypes i = some t := by
        intro t
        rw [List.mem_filterMap]
        constructor
        · rintro ⟨i, hi, hl⟩
          exact ⟨i, (hids_iff i).mp hi, hl⟩
        · rintro ⟨i, hi, hl⟩
          exact ⟨i, (hids_iff i).mpr hi, hl⟩
      obtain ⟨sortedL, houteq, hndL, hmemL, _⟩ :=
        sortTypesByDependency_sorted_facts heq2
      have hmem_out : ∀ t, t ∈ out ↔
          t ∈ ids.filterMap (lookupTypeById allTypes) := by
        intro t
        rw [houteq, (sortArraysLast_perm sortedL).mem_iff, hmemL t]
        constructor
        · rintro ⟨n, hn, rfl⟩
          rw [buildTypeMap_eq_of_nodup hnodup_req_ids] at hn
          obtain ⟨u, hu, rfl⟩ := List.mem_map.mp hn
          exact hu
        · intro ht
          refine ⟨mkTypeNode t, ?_, rfl⟩
          rw [buildTypeMap_eq_of_nodup hnodup_req_ids]
          exact List.mem_map_of_mem _ ht
      exact ⟨fun t => (hmem_out t).trans (hmem_req t),
        ⟨ids.filterMap (lookupTypeById allTypes), heq2, hmem_req⟩⟩

/-- The concrete catalog of the C3 scenario: `A` (id 1) has a composite
attribute of type `C` (id 3); `B` (id 2) stands alone. -/
def c3Catalog : List PostgresType :=
  [{ id := 1, name := "a", attributes := [{ name := "x", type_id := 3 }],
     enums := [], comment := none },
   { id := 2, name := "b", attributes := [], enums := [], comment := none },
   { id := 3, name := "c", attributes := [], enums := [], comment := none }]

/-- Columns referencing exactly the formats `a` and `b`. -/
def c3Columns : List PostgresColumn :=
  [{ table_id := 1, name := "colA", format := "a", data_type := "USER-DEFINED",
     is_nullable := false, is_generated := false, is_identity := false,
     default_value := none, check := none },
   { table_id := 1, name := "colB", format := "b", data_type := "USER-DEFINED",
     is_nullable := false, is_generated := false, is_identity := false,
     default_value := none, check := none }]

/-- C3 witness: for columns referencing `{a, b}` where `a` has a composite
attribute of type `c`, the output is exactly the dependency-sorted
`{c, a, b}`. -/
theorem getRequiredTypes_closure_witness :
    (∀ t, t ∈ [c3Catalog.get ⟨2, by decide⟩, c3Catalog.get ⟨0, by decide⟩,
        c3Catalog.get ⟨1, by decide⟩] ↔
      ∃ i, RequiredTypeId c3Catalog c3Columns i ∧
        lookupTypeById c3Catalog i = some t) ∧
    (∃ req : List PostgresType,
      sortTypesByDependency req =
        .ok [c3Catalog.get ⟨2, by decide⟩, c3Catalog.get ⟨0, by decide⟩,
          c3Catalog.get ⟨1, by decide⟩] ∧
      ∀ t, t ∈ req ↔ ∃ i, RequiredTypeId c3Catalog c3Columns i ∧
        lookupTypeById c3Catalog i = some t) :=
  getRequiredTypes_closure c3Catalog c3Columns
    [c3Catalog.get ⟨2, by decide⟩, c3Catalog.get ⟨0, by decide⟩,
      c3Catalog.get ⟨1, by decide⟩] []
    (by decide)

theorem dfs_dfsDeps_circular (fuel : Nat) :
    (∀ nodeId st nm, dfs fuel nodeId st = .error (.circular nm) →
      ∃ p ∈ graphSig st.typeMap, p.1.name = nm) ∧
    (∀ deps st nm, dfsDeps fuel deps st = .error (.circular nm) →
      ∃ p ∈ graphSig st.typeMap, p.1.name = nm) := by
  induction fuel with
  | zero =>
    constructor
    · intro nodeId st nm h
      exact SortError.noConfusion (Except.error.inj h)
    · intro deps st nm h
      cases deps with
      | nil => exact Except.noConfusion h
      | cons d ds => exact SortError.noConfusion (Except.error.inj h)
  | succ fuel ih =>
    have hdfs : ∀ nodeId st nm, dfs (fuel + 1) nodeId st = .error (.circular nm) →
        ∃ p ∈ graphSig st.typeMap, p.1.name = nm := by
      intro nodeId st nm h
      unfold dfs at h
      split at h
      next hfind => exact Except.noConfusion h
      next node hfind =>
        split at h
        next hstack =>
          have hnm : node.type.name = nm :=
            SortError.circular.inj (Except.error.inj h)
          exact ⟨nodeSig node, List.mem_map_of_mem _ (findNode_some_mem hfind), hnm⟩
        next hstack =>
          split at h
          next hvis => exact Except.noConfusion h
          next hvis =>
            split at h
            next e heq =>
              rw [Except.error.inj h] at heq
              obtain ⟨p, hp, hpn⟩ := ih.2 node.dependencies _ nm heq
              have hp' : p ∈ graphSig (markInStack st.typeMap nodeId) := hp
              rw [graphSig_markInStack] at hp'
              exact ⟨p, hp', hpn⟩
            next st2 heq => exact Except.noConfusion h
    refine ⟨hdfs, ?_⟩
    intro deps
    induction deps with
    | nil => intro st nm h; exact Except.noConfusion h
    | cons d ds ihd =>
      intro st nm h
      unfold dfsDeps dfsDepsWith at h
      split at h
      next e heq =>
        rw [Except.error.inj h] at heq
        exact hdfs d st nm heq
      next st1 heq =>
        obtain ⟨p, hp, hpn⟩ := ihd st1 nm h
        have hstep := ((dfs_dfsDeps_ok (fuel + 1)).1 d st st1 heq).1
        rw [hstep.graph] at hp
        exact ⟨p, hp, hpn⟩

theorem dfsAll_circular (fuel : Nat) : ∀ (keys : List Nat) (st : SortState)
    (nm : String), dfsAll fuel keys st = .error (.circular nm) →
    ∃ p ∈ graphSig st.typeMap, p.1.name = nm := by
  intro keys
  induction keys with
  | nil => intro st nm h; exact Except.noConfusion h
  | cons k ks ih =>
    intro st nm h
    unfold dfsAll at h
    split at h
    next hfind => exact ih st nm h
    next n hfind =>
      split at h
      next hvis => exact ih st nm h
      next hvis =>
        split at h
        next e heq =>
          rw [Except.error.inj h] at heq
          exact (dfs_dfsDeps_circular fuel).1 k st nm heq
        next st' heq =>
          obtain ⟨p, hp, hpn⟩ := ih st' nm h
          have hstep := ((dfs_dfsDeps_ok fuel).1 k st st' heq).1
          rw [hstep.graph] at hp
          exact ⟨p, hp, hpn⟩

theorem sortTypesByDependency_circular_mem {types : List PostgresType}
    {nm : String} (h : sortTypesByDependency types = .error (.circular nm)) :
    ∃ t ∈ types, t.name = nm := by
  unfold sortTypesByDependency at h
  dsimp only at h
  split at h
  next e heq =>
    rw [Except.error.inj h] at heq
    obtain ⟨p, hp, hpn⟩ := dfsAll_circular _ _ _ _ heq
    have hp' : p ∈ graphSig (buildTypeMap types) := hp
    obtain ⟨n, hn, hns⟩ := List.mem_map.mp hp'
    obtain ⟨t, ht, rfl⟩ := buildTypeMap_mem hn
    refine ⟨t, ht, ?_⟩
    rw [← hns] at hpn
    exact hpn
  next st' heq => exact Except.noConfusion h

theorem lookupTypeById_nodup {types : List PostgresType}
    (hnd : (types.map (·.id)).Nodup) {t : PostgresType} (ht : t ∈ types) :
    lookupTypeById types t.id = some t := by
  cases hsome : lookupTypeById types t.id with
  | none => exact absurd hsome (lookupTypeById_of_mem ht)
  | some u =>
    obtain ⟨hu, hid⟩ := lookupTypeById_some hsome
    have heq : u = t := List.inj_on_of_nodup_map hnd hu ht hid
    rw [heq]

theorem sortTypesByDependency_mutual_error {types : List PostgresType}
    {A B : PostgresType} (hnd : (types.map (·.id)).Nodup)
    (hA : A ∈ types) (hB : B ∈ types) (hABid : A.id ≠ B.id)
    (ha : ∃ a ∈ A.attributes, a.type_id = B.id)
    (hb : ∃ b ∈ B.attributes, b.type_id = A.id) :
    ∃ nm, sortTypesByDependency types = .error (.circular nm) := by
  cases hres : sortTypesByDependency types with
  | ok out =>
    exfalso
    obtain ⟨sortedL, _, hndL, hmemL, hdeps⟩ :=
      sortTypesByDependency_sorted_facts hres
    have hAs : A ∈ sortedL := (hmemL A).mpr
      ⟨mkTypeNode A,
        by rw [buildTypeMap_eq_of_nodup hnd]; exact List.mem_map_of_mem _ hA, rfl⟩
    have hBs : B ∈ sortedL := (hmemL B).mpr
      ⟨mkTypeNode B,
        by rw [buildTypeMap_eq_of_nodup hnd]; exact List.mem_map_of_mem _ hB, rfl⟩
    have hfA : findNode (buildTypeMap types) A.id = some (mkTypeNode A) :=
      findNode_buildTypeMap hnd hA
    have hfB : findNode (buildTypeMap types) B.id = some (mkTypeNode B) :=
      findNode_buildTypeMap hnd hB
    obtain ⟨a, haA, haB⟩ := ha
    obtain ⟨b, hbB, hbA⟩ := hb
    have hdepA : B.id ∈ (mkTypeNode A).dependencies := by
      unfold mkTypeNode
      dsimp only
      rw [List.mem_filter]
      refine ⟨List.mem_map.mpr ⟨a, haA, haB⟩, ?_⟩
      simpa using Ne.symm hABid
    have hdepB : A.id ∈ (mkTypeNode B).dependencies := by
      unfold mkTypeNode
      dsimp only
      rw [List.mem_filter]
      refine ⟨List.mem_map.mpr ⟨b, hbB, hbA⟩, ?_⟩
      simpa using hABid
    have hBA : List.Sublist [B, A] sortedL :=
      hdeps A hAs _ hfA B.id hdepA _ hfB
    have hAB : List.Sublist [A, B] sortedL :=
      hdeps B hBs _ hfB A.id hdepB _ hfA
    have hndS : sortedL.Nodup := hndL.of_map
    exact hABid (congrArg (·.id) (sublist_pair_nodup_eq hndS hAB hBA))
  | error e =>
    cases e with
    | circular nm => exact ⟨nm, rfl⟩
    | fuelOut => exact absurd hres (sortTypesByDependency_no_fuelOut types)

theorem getRequiredTypes_mutual_error {types : List PostgresType}
    {A B : PostgresType} {columns : List PostgresColumn}
    (hnd : (types.map (·.id)).Nodup)
    (hA : A ∈ types) (hB : B ∈ types) (hABid : A.id ≠ B.id)
    (ha : ∃ a ∈ A.attributes, a.type_id = B.id)
    (hb : ∃ b ∈ B.attributes, b.type_id = A.id)
    (hc : ∃ c ∈ columns, lookupTypeByName types c.format = some A) :
    ∃ nm, getRequiredTypes types columns = .error (.circular nm) := by
  obtain ⟨ids, hids⟩ :=
    collectDepsList_top_ok types (scanColumnFormats types columns).1
  have hids' := hids
  unfold collectDepsList at hids'
  obtain ⟨lm, lp, lc, lnodup⟩ :=
    collectListWith_spec types _
      (fun tid a2 a2' hh => collectDependencies_spec types _ tid a2 a2' hh)
      _ _ _ hids'
  have hclosed : CollectClosed types ids [] := lc [] (by intro i hi; cases hi)
  obtain ⟨c, hcmem, hcl⟩ := hc
  have hAseed : A.id ∈ (scanColumnFormats types columns).1 :=
    scanColumnFormats_mem_direct hcmem hcl
  have hAin : A.id ∈ ids := lp _ hAseed (lookupTypeById_of_mem hA)
  obtain ⟨a, haA, haB⟩ := ha
  have hlA : lookupTypeById types A.id = some A := lookupTypeById_nodup hnd hA
  have hlB : lookupTypeById types B.id = some B := lookupTypeById_nodup hnd hB
  have hBin : B.id ∈ ids := by
    have hcA := hclosed A.id hAin (by intro hh; cases hh) A hlA
    have hmem2 := hcA.1 a haA (by rw [haB, hlB]; intro hh; cases hh)
    rw [haB] at hmem2
    exact hmem2
  have hreqids : ∀ i ∈ ids, RequiredTypeId types columns i :=
    collectListWith_required types columns _
      (fun tid a2 a2' hh =>
        collectDependencies_required types columns _ tid a2 a2' hh)
      _ _ _ hids' (fun j hj _ => scanColumnFormats_required types columns j hj)
      (by intro i hi; cases hi)
  have hresolvable : ∀ i ∈ ids, lookupTypeById types i ≠ none :=
    fun i hi => requiredTypeId_resolvable (hreqids i hi)
  have hndreq : ((ids.filterMap (lookupTypeById types)).map (·.id)).Nodup := by
    rw [filterMap_lookup_map_id ids hresolvable]
    exact lnodup List.nodup_nil
  have hAreq : A ∈ ids.filterMap (lookupTypeById types) :=
    List.mem_filterMap.mpr ⟨A.id, hAin, hlA⟩
  have hBreq : B ∈ ids.filterMap (lookupTypeById types) :=
    List.mem_filterMap.mpr ⟨B.id, hBin, hlB⟩
  obtain ⟨nm, hsort⟩ :=
    sortTypesByDependency_mutual_error hndreq hAreq hBreq hABid ⟨a, haA, haB⟩ hb
  refine ⟨nm, ?_⟩
  unfold getRequiredTypes
  dsimp only
  rw [hids]
  dsimp only
  rw [hsort]

/-- C2 (corrected): two composite types that each reference the other do
make `sortTypesByDependency` throw the circular-dependency error — the
result is an error carrying a type name, so no sorted output (not even a
partial one) is produced — and the name is that of one of the input
types (in particular, when the input is exactly the pair, one of the
pair); `getRequiredTypes` throws likewise whenever some column's format
resolves to one of the pair.  The claim's unconditional "and hence
getRequiredTypes" is refuted by the counterexample below: when no column
references the cycle, the pair is not part of the required closure and
`getRequiredTypes` returns a successful result. -/
theorem sortTypesByDependency_mutual_pair (types : List PostgresType)
    (A B : PostgresType) (columns : List PostgresColumn)
    (hnd : (types.map (·.id)).Nodup)
    (hA : A ∈ types) (hB : B ∈ types) (hABid : A.id ≠ B.id)
    (ha : ∃ a ∈ A.attributes, a.type_id = B.id)
    (hb : ∃ b ∈ B.attributes, b.type_id = A.id) :
    (∃ nm, sortTypesByDependency types = .error (.circular nm) ∧
      (∃ t ∈ types, t.name = nm) ∧
      ((∀ u ∈ types, u = A ∨ u = B) → nm = A.name ∨ nm = B.name)) ∧
    ((∃ c ∈ columns, lookupTypeByName types c.format = some A) →
      ∃ nm, getRequiredTypes types columns = .error (.circular nm)) := by
  constructor
  · obtain ⟨nm, hsort⟩ :=
      sortTypesByDependency_mutual_error hnd hA hB hABid ha hb
    obtain ⟨t, ht, htnm⟩ := sortTypesByDependency_circular_mem hsort
    refine ⟨nm, hsort, ⟨t, ht, htnm⟩, ?_⟩
    intro hall
    rcases hall t ht with h1 | h1
    · exact Or.inl (by rw [← htnm, h1])
    · exact Or.inr (by rw [← htnm, h1])
  · intro hc
    exact getRequiredTypes_mutual_error hnd hA hB hABid ha hb hc

/-- The mutually referencing composite pair of the C2 scenario. -/
def c2A : PostgresType :=
  { id := 1, name := "a", attributes := [{ name := "toB", type_id := 2 }],
    enums := [], comment := none }

/-- The second half of the mutually referencing pair. -/
def c2B : PostgresType :=
  { id := 2, name := "b", attributes := [{ name := "toA", type_id := 1 }],
    enums := [], comment := none }

/-- A column whose format resolves to `c2A`. -/
def c2Col : PostgresColumn :=
  { table_id := 1, name := "colA", format := "a", data_type := "USER-DEFINED",
    is_nullable := false, is_generated := false, is_identity := false,
    default_value := none, check := none }

/-- C2 counterexample: with the mutual pair in the catalog but no column
referencing it, `getRequiredTypes` returns a successful, empty result —
it does not throw — while `sortTypesByDependency` on the same catalog
does throw the circular error. -/
theorem getRequiredTypes_mutual_pair_ok :
    sortTypesByDependency [c2A, c2B] = .error (.circular "a") ∧
    getRequiredTypes [c2A, c2B] [] = .ok ([], []) := by
  exact ⟨rfl, rfl⟩

/-- C2 witness: the theorem applied to the concrete pair, with a column
referencing `c2A`. -/
theorem sortTypesByDependency_mutual_pair_witness :
    (∃ nm, sortTypesByDependency [c2A, c2B] = .error (.circular nm) ∧
      (∃ t ∈ [c2A, c2B], t.name = nm) ∧
      ((∀ u ∈ [c2A, c2B], u = c2A ∨ u = c2B) →
        nm = c2A.name ∨ nm = c2B.name)) ∧
    ((∃ c ∈ [c2Col], lookupTypeByName [c2A, c2B] c.format = some c2A) →
      ∃ nm, getRequiredTypes [c2A, c2B] [c2Col] = .error (.circular nm)) :=
  sortTypesByDependency_mutual_pair [c2A, c2B] c2A c2B [c2Col]
    (by decide) (by decide) (by decide) (by decide) (by decide) (by decide)
